import Mathlib

/-!
# Verification of the expense-splitter core (src/App.vue)

A shallow embedding of the state model, balance engine and share codec of
the expense-splitter single-page application, together with theorems
settling the specification claims.

Modelling conventions:
* JS numbers are embedded as `Option ℚ`: `some q` is a finite number with
  exact value `q`, `none` stands for a non-finite number (`NaN`/`±Infinity`);
  the code only ever distinguishes non-finite numbers via `Number.isFinite`,
  so the three non-finite values are conflated.  Floating-point rounding is
  idealized away: arithmetic is exact.
* JS strings are Lean `String`s.  `String.prototype.trim` and
  `String.prototype.toLowerCase` are modelled by `jsTrim`/`jsToLower`
  below, which operate on the character list (ASCII case folding,
  ASCII-style whitespace set).
* JS `Map` is modelled by an insertion-ordered association list (`msetAux`
  keeps the position of an existing key, appends a new key; iteration order
  is list order), matching the iteration-order guarantees of `Map`.
-/

set_option linter.unusedVariables false
set_option maxRecDepth 400000

namespace ExpenseSplitter

/-- Model of the whitespace characters stripped by `String.prototype.trim`. -/
def wsChars : List Char := [' ', '\t', '\n', '\r', '\x0b', '\x0c']

/-- Model of `String.prototype.trim`: strip leading and trailing whitespace. -/
def jsTrim (s : String) : String :=
  String.mk (((s.data.dropWhile (wsChars.contains ·)).reverse.dropWhile
    (wsChars.contains ·)).reverse)

/-- Model of `String.prototype.toLowerCase` (ASCII case folding). -/
def jsToLower (s : String) : String := String.mk (s.data.map Char.toLower)

/-- A JS number: `some q` is a finite value, `none` a non-finite one. -/
abbrev JsNum := Option ℚ

/-- `Person` record of App.vue. -/
structure Person where
  name : String
  paid : Bool
  paidAmount : JsNum
  paidTo : String
  auto : Bool
  deriving DecidableEq, Repr

/-- `Expense` record of App.vue. -/
structure Expense where
  payer : String
  amount : JsNum
  note : String
  deriving DecidableEq, Repr

/-- `Payment` record of App.vue. -/
structure Payment where
  «from» : String
  «to» : String
  amount : JsNum
  note : String
  deriving DecidableEq, Repr

/-- The reactive state of the component: the `people`, `expenses` and
`payments` refs plus the `shareId` ref (empty string when unset). -/
structure AppState where
  people : List Person
  expenses : List Expense
  payments : List Payment
  sid : String
  deriving DecidableEq, Repr

/-- `trimmedPeople`: trimmed names of the people list, empty names dropped. -/
def trimmedPeople (st : AppState) : List String :=
  (st.people.map (fun p => jsTrim p.name)).filter (fun n => n.length > 0)

/-- Loop body of `uniquePeople`: first-seen-casing deduplication by
lower-cased key. -/
def uniqueAux : List String → List String → List String
  | [], _ => []
  | n :: rest, seen =>
    if jsToLower n ∈ seen then uniqueAux rest seen
    else n :: uniqueAux rest (jsToLower n :: seen)

/-- `uniquePeople`: case-insensitively deduplicated trimmed names,
first-seen casing and order preserved. -/
def uniquePeople (st : AppState) : List String :=
  uniqueAux (trimmedPeople st) []

/-- A normalized expense (after `normalizedExpenses`): amounts are finite. -/
structure NExpense where
  payer : String
  amount : ℚ
  note : String
  deriving DecidableEq, Repr

/-- A normalized payment (after `normalizedPayments`): amounts are finite. -/
structure NPayment where
  «from» : String
  «to» : String
  amount : ℚ
  note : String
  deriving DecidableEq, Repr

/-- `Number.isFinite(x) ? Math.max(0, x) : 0`. -/
def clampNum : JsNum → ℚ
  | some q => max 0 q
  | none => 0

/-- `normalizedExpenses`: trim payer and note, clamp the amount. -/
def normalizedExpenses (st : AppState) : List NExpense :=
  st.expenses.map (fun e =>
    { payer := jsTrim e.payer, amount := clampNum e.amount, note := jsTrim e.note })

/-- `normalizedPayments`: trim endpoints and note, clamp the amount, keep
only payments with non-empty endpoints and `from !== to`. -/
def normalizedPayments (st : AppState) : List NPayment :=
  (st.payments.map (fun p =>
      { «from» := jsTrim p.«from», «to» := jsTrim p.«to»,
        amount := clampNum p.amount, note := jsTrim p.note }))
    |>.filter (fun p => !(p.«from» == "") && !(p.«to» == "") && !(p.«from» == p.«to»))

/-- `totalSpent`: sum of normalized expense amounts. -/
def totalSpent (st : AppState) : ℚ :=
  (normalizedExpenses st).foldl (fun sum e => sum + e.amount) 0

/-- `perPersonShare`: equal split of the total, zero when there is nobody
to split over or nothing was spent. -/
def perPersonShare (st : AppState) : ℚ :=
  if (uniquePeople st).length = 0 ∨ totalSpent st ≤ 0 then 0
  else totalSpent st / (uniquePeople st).length

/-- Model of a JS `Map` with values of type `α`: an insertion-ordered
association list. -/
abbrev JMap (α : Type) := List (String × α)

/-- Model of `Map.prototype.set`: replace in place when the key exists,
append otherwise. -/
def msetAux {α : Type} : JMap α → String → α → JMap α
  | [], k, v => [(k, v)]
  | (k', v') :: rest, k, v =>
    if k' = k then (k', v) :: rest else (k', v') :: msetAux rest k v

/-- Model of `Map.prototype.get` (`none` = `undefined`). -/
def mget {α : Type} (m : JMap α) (k : String) : Option α :=
  (m.find? (fun p => p.1 == k)).map (fun p => p.2)

/-- `map.set(k, (map.get(k) ?? 0) + v)` — the accumulation step shared by
the by-name maps. -/
def bumpKey (m : JMap ℚ) (k : String) (v : ℚ) : JMap ℚ :=
  msetAux m k ((mget m k).getD 0 + v)

/-- `paidByName`: total normalized expense amount per lower-cased payer,
skipping empty payers. -/
def paidByName (st : AppState) : JMap ℚ :=
  (normalizedExpenses st).foldl
    (fun m e => if e.payer == "" then m else bumpKey m (jsToLower e.payer) e.amount)
    []

/-- `sentByName`: total valid positive payment amount per lower-cased
sender. -/
def sentByName (st : AppState) : JMap ℚ :=
  (normalizedPayments st).foldl
    (fun m p =>
      if p.«from» == "" || p.«to» == "" || decide (p.amount ≤ 0) then m
      else bumpKey m (jsToLower p.«from») p.amount)
    []

/-- `receivedByName`: total valid positive payment amount per lower-cased
recipient. -/
def receivedByName (st : AppState) : JMap ℚ :=
  (normalizedPayments st).foldl
    (fun m p =>
      if p.«from» == "" || p.«to» == "" || decide (p.amount ≤ 0) then m
      else bumpKey m (jsToLower p.«to») p.amount)
    []

/-- One row of the `balances` computed view. -/
structure BalanceEntry where
  name : String
  paid : ℚ
  sent : ℚ
  received : ℚ
  balance : ℚ
  deriving DecidableEq, Repr

/-- `balances`: per unique person, amounts paid/sent/received and the net
balance `paid + sent - received - perPersonShare`. -/
def balances (st : AppState) : List BalanceEntry :=
  (uniquePeople st).map (fun name =>
    let key := jsToLower name
    let paid := (mget (paidByName st) key).getD 0
    let sent := (mget (sentByName st) key).getD 0
    let received := (mget (receivedByName st) key).getD 0
    { name := name, paid := paid, sent := sent, received := received,
      balance := paid + sent - received - perPersonShare st })

/-- The fixed settlement tolerance `0.01`. -/
def settlementEpsilon : ℚ := 1 / 100

/-- `allSettled`: everything is settled when something was spent, at least
two people split it, at least one valid payment exists and every balance is
within the tolerance. -/
def allSettled (st : AppState) : Bool :=
  decide (0 < totalSpent st) &&
  decide (1 < (uniquePeople st).length) &&
  decide (0 < (balances st).length) &&
  decide (0 < (normalizedPayments st).length) &&
  (balances st).all (fun b => decide (|b.balance| ≤ settlementEpsilon))

/-- Amount paid by person `p`, stated as the claims state it: the sum of
normalized expense amounts whose payer matches `p` case-insensitively. -/
def paidOf (st : AppState) (p : String) : ℚ :=
  (((normalizedExpenses st).filter
      (fun e => jsToLower e.payer == jsToLower p)).map (fun e => e.amount)).sum

/-- Amount sent by person `p`, stated as the claims state it: the sum of
valid positive payment amounts whose sender matches `p` case-insensitively. -/
def sentOf (st : AppState) (p : String) : ℚ :=
  (((normalizedPayments st).filter
      (fun pm => decide (0 < pm.amount) && (jsToLower pm.«from» == jsToLower p))).map
    (fun pm => pm.amount)).sum

/-- Amount received by person `p`, stated as the claims state it: the sum of
valid positive payment amounts whose recipient matches `p`
case-insensitively. -/
def receivedOf (st : AppState) (p : String) : ℚ :=
  (((normalizedPayments st).filter
      (fun pm => decide (0 < pm.amount) && (jsToLower pm.«to» == jsToLower p))).map
    (fun pm => pm.amount)).sum

/-- `removePerson`: refuse when the index is out of range, the person's
trimmed name is empty, or the person is the (case-insensitive) payer of a
normalized expense with positive amount; otherwise drop every payment
whose trimmed `from` or `to` matches the person's name case-insensitively
and remove the person entry.  Expenses are never touched. -/
def removePerson (st : AppState) (index : Nat) : AppState :=
  match st.people[index]? with
  | none => st
  | some person =>
    let key := jsToLower (jsTrim person.name)
    if key = "" then st
    else
      let hasPaidExpense := (normalizedExpenses st).any
        (fun e => jsToLower e.payer == key && decide (0 < e.amount))
      if hasPaidExpense then st
      else
        let nameKey := jsToLower (jsTrim person.name)
        { st with
          payments := st.payments.filter (fun pm =>
            !(jsToLower (jsTrim pm.«from») == nameKey) &&
            !(jsToLower (jsTrim pm.«to») == nameKey)),
          people := st.people.eraseIdx index }

/-- The per-payment accumulation step of `syncPeoplePaymentStatus`:
`sentTotals` per sender and `recipientTotals` per sender/recipient pair. -/
def syncStep (acc : JMap ℚ × JMap (JMap ℚ)) (p : NPayment) : JMap ℚ × JMap (JMap ℚ) :=
  if p.«from» == "" || p.«to» == "" || decide (p.amount ≤ 0) then acc
  else
    let fromKey := jsToLower p.«from»
    let toKey := jsToLower p.«to»
    let sent := bumpKey acc.1 fromKey p.amount
    let inner := (mget acc.2 fromKey).getD []
    let recips := msetAux acc.2 fromKey (bumpKey inner toKey p.amount)
    (sent, recips)

/-- The `sentTotals` map of `syncPeoplePaymentStatus`. -/
def sentTotals (st : AppState) : JMap ℚ :=
  ((normalizedPayments st).foldl syncStep ([], [])).1

/-- The `recipientTotals` map of `syncPeoplePaymentStatus`. -/
def recipientTotals (st : AppState) : JMap (JMap ℚ) :=
  ((normalizedPayments st).foldl syncStep ([], [])).2

/-- The top-recipient loop: keep the best pair, replacing it only on a
strict improvement (so the first maximal amount wins). -/
def topRecipientAux : List (String × ℚ) → String × ℚ → String × ℚ
  | [], best => best
  | (r, a) :: rest, best =>
    if best.2 < a then topRecipientAux rest (r, a) else topRecipientAux rest best

/-- `person.name.trim().toLowerCase()`, the per-person lookup key. -/
def personKey (person : Person) : String := jsToLower (jsTrim person.name)

/-- `Math.max(0, perPersonShare - paid)`: the person's owed remainder. -/
def owedOf (st : AppState) (person : Person) : ℚ :=
  max 0 (perPersonShare st - (mget (paidByName st) (personKey person)).getD 0)

/-- The person's cumulative sent amount (`sentTotals.get(key) ?? 0`). -/
def sentTotalOf (st : AppState) (person : Person) : ℚ :=
  (mget (sentTotals st) (personKey person)).getD 0

/-- Claim-side notion of the auto-settlement trigger: the cumulative sent
amount covers the owed remainder (share minus paid, clamped to `≥ 0`)
within the `0.01` epsilon. -/
def coversOwed (st : AppState) (person : Person) : Prop :=
  owedOf st person - settlementEpsilon ≤ sentTotalOf st person

instance (st : AppState) (person : Person) : Decidable (coversOwed st person) := by
  unfold coversOwed
  infer_instance

/-- The per-person update of `syncPeoplePaymentStatus`: `fullyPaid` is
`owed > 0 && sent >= owed - epsilon`; on `fullyPaid`, set `paid`, backfill
`paidAmount` when it was `0`, and backfill an empty `paidTo` with the
unique-people casing of the top recipient. -/
def syncPerson (st : AppState) (person : Person) : Person :=
  if personKey person = "" then person
  else if 0 < owedOf st person ∧ coversOwed st person then
    let p1 := { person with paid := true }
    let p2 := if p1.paidAmount = some 0
      then { p1 with paidAmount := some (sentTotalOf st person) } else p1
    match mget (recipientTotals st) (personKey person) with
    | some recips =>
      if recips.length ≠ 0 then
        let top := topRecipientAux recips ("", -1)
        let m := (uniquePeople st).find? (fun n => jsToLower n == top.1)
        if p2.paidTo = "" then { p2 with paidTo := m.getD p2.paidTo } else p2
      else p2
    | none => p2
  else person

/-- `syncPeoplePaymentStatus`: update every person in place. -/
def syncPeoplePaymentStatus (st : AppState) : List Person :=
  st.people.map (syncPerson st)

/-- Claim-side notion of the chosen recipient: the first entry, in
iteration order, whose cumulative amount is maximal. -/
def firstMaxEntry (entries : List (String × ℚ)) : Option (String × ℚ) :=
  entries.find? (fun e => entries.all (fun e2 => decide (e2.2 ≤ e.2)))

/-! ## Base64 / base64url codec

`btoa`/`atob` are browser primitives; they are modelled here by standard
base64 over byte lists (WHATWG forgiving-base64 for `atob`: strip up to two
trailing `=` when the length is a multiple of four, then decode 6-bit
groups, failing — `none`, the model of `InvalidCharacterError` — on any
character outside the alphabet or on a leftover length of one).  The
`replace` calls of `base64UrlEncodeBytes`/`base64UrlDecodeToBytes` are the
repository's own code. -/

/-- The standard base64 alphabet used by `btoa`/`atob`. -/
def b64Alphabet : List Char :=
  "ABCDEFGHIJKLMNOPQRSTUVWXYZabcdefghijklmnopqrstuvwxyz0123456789+/".data

/-- The base64 character of a 6-bit group. -/
def b64Char (n : Nat) : Char := b64Alphabet.getD n 'A'

/-- The 6-bit value of a base64 character (`none` outside the alphabet). -/
def b64Index (c : Char) : Option Nat := b64Alphabet.indexOf? c

/-- Model of `btoa` on the byte values of its binary-string argument:
encode 3-byte groups into 4 characters, padding the final partial group
with `=`. -/
def btoaChars : List Nat → List Char
  | [] => []
  | [b0] => [b64Char (b0 / 4), b64Char (b0 % 4 * 16), '=', '=']
  | [b0, b1] =>
    [b64Char (b0 / 4), b64Char (b0 % 4 * 16 + b1 / 16), b64Char (b1 % 16 * 4), '=']
  | b0 :: b1 :: b2 :: rest =>
    b64Char (b0 / 4) :: b64Char (b0 % 4 * 16 + b1 / 16) ::
      b64Char (b1 % 16 * 4 + b2 / 64) :: b64Char (b2 % 64) :: btoaChars rest

/-- Remove up to two trailing `=` (the padding-strip step of
forgiving-base64): drop a trailing `=` at most twice. -/
def stripPad (cs : List Char) : List Char :=
  let cs1 := if cs.getLast? = some '=' then cs.dropLast else cs
  if cs1.getLast? = some '=' then cs1.dropLast else cs1

/-- Decode base64 characters after padding removal: full 4-character
groups yield 3 bytes, a leftover of 2 or 3 characters yields 1 or 2 bytes,
a leftover of 1 character is an error. -/
def b64DecodeBody : List Char → Option (List Nat)
  | [] => some []
  | [c0, c1] => do
    let i0 ← b64Index c0
    let i1 ← b64Index c1
    pure [i0 * 4 + i1 / 16]
  | [c0, c1, c2] => do
    let i0 ← b64Index c0
    let i1 ← b64Index c1
    let i2 ← b64Index c2
    pure [i0 * 4 + i1 / 16, i1 % 16 * 16 + i2 / 4]
  | c0 :: c1 :: c2 :: c3 :: rest => do
    let i0 ← b64Index c0
    let i1 ← b64Index c1
    let i2 ← b64Index c2
    let i3 ← b64Index c3
    let tail ← b64DecodeBody rest
    pure ((i0 * 4 + i1 / 16) :: (i1 % 16 * 16 + i2 / 4) :: (i2 % 4 * 64 + i3) :: tail)
  | _ => none

/-- Model of `atob` (WHATWG forgiving-base64, without the whitespace
removal that never triggers on this codec's inputs). -/
def atobChars (cs : List Char) : Option (List Nat) :=
  b64DecodeBody (if cs.length % 4 = 0 then stripPad cs else cs)

/-- The `'+'→'-'`, `'/'→'_'` character replacement of
`base64UrlEncodeBytes`. -/
def urlFwd (c : Char) : Char := if c = '+' then '-' else if c = '/' then '_' else c

/-- The `'-'→'+'`, `'_'→'/'` character replacement of
`base64UrlDecodeToBytes`. -/
def urlBack (c : Char) : Char := if c = '-' then '+' else if c = '_' then '/' else c

/-- The `replace(/=+$/g, '')` step: drop the trailing run of `=`. -/
def stripTrailingEq (cs : List Char) : List Char :=
  (cs.reverse.dropWhile (fun c => c = '=')).reverse

/-- `base64UrlEncodeBytes`: `btoa`, then `+/`→`-_`, then strip `=`. -/
def base64UrlEncodeBytes (bytes : List Nat) : String :=
  String.mk (stripTrailingEq ((btoaChars bytes).map urlFwd))

/-- `base64UrlDecodeToBytes`: `-_`→`+/`, restore `=` padding to a multiple
of four, then `atob`. -/
def base64UrlDecodeToBytes (s : String) : Option (List Nat) :=
  let base := s.data.map urlBack
  let pad := if base.length % 4 ≠ 0 then List.replicate (4 - base.length % 4) '=' else []
  atobChars (base ++ pad)

/-- Proof-side view of the non-padding characters `btoaChars` emits. -/
def b64Body : List Nat → List Char
  | [] => []
  | [b0] => [b64Char (b0 / 4), b64Char (b0 % 4 * 16)]
  | [b0, b1] =>
    [b64Char (b0 / 4), b64Char (b0 % 4 * 16 + b1 / 16), b64Char (b1 % 16 * 4)]
  | b0 :: b1 :: b2 :: rest =>
    b64Char (b0 / 4) :: b64Char (b0 % 4 * 16 + b1 / 16) ::
      b64Char (b1 % 16 * 4 + b2 / 64) :: b64Char (b2 % 64) :: b64Body rest

/-- Proof-side view of the number of `=` padding characters `btoaChars`
emits. -/
def b64PadLen : List Nat → Nat
  | [] => 0
  | [_] => 2
  | [_, _] => 1
  | _ :: _ :: _ :: rest => b64PadLen rest

/-! ## JSON model

`JSON.parse` / `JSON.stringify` are platform primitives; parsed values are
modelled by the `Json` inductive (JSON numbers are finite, so a plain `ℚ`
suffices), member access by `getField` (for duplicate keys `JSON.parse`
keeps the last occurrence). -/

/-- A parsed JSON value. -/
inductive Json where
  | null : Json
  | bool (b : Bool) : Json
  | num (q : ℚ) : Json
  | str (s : String) : Json
  | arr (elems : List Json) : Json
  | obj (fields : List (String × Json)) : Json
  deriving Repr

/-- JS member access `j.k` on a parsed value (`none` = `undefined`). -/
def getField (j : Json) (k : String) : Option Json :=
  match j with
  | .obj fields => (fields.reverse.find? (fun f => f.1 == k)).map (fun f => f.2)
  | _ => none

/-- The record filter `typeof entry === 'object' && entry`: objects and
arrays pass, `null` (typeof `'object'` but falsy) and primitives do not. -/
def isJsObject : Json → Bool
  | .obj _ => true
  | .arr _ => true
  | _ => false

/-- `typeof x === 'string' ? x : ''`. -/
def decodeStrField (j : Option Json) : String :=
  match j with
  | some (.str s) => s
  | _ => ""

/-- `typeof x === 'boolean' ? x : false`. -/
def decodeBoolField (j : Option Json) : Bool :=
  match j with
  | some (.bool b) => b
  | _ => false

/-- `typeof x === 'number' ? x : 0` (a parsed JSON number is finite). -/
def decodeNumField (j : Option Json) : JsNum :=
  match j with
  | some (.num q) => some q
  | _ => some 0

/-- The person-record mapping of `loadFromUrl`. -/
def decodePersonEntry (e : Json) : Person :=
  { name := decodeStrField (getField e "name"),
    paid := decodeBoolField (getField e "paid"),
    paidAmount := decodeNumField (getField e "paidAmount"),
    paidTo := decodeStrField (getField e "paidTo"),
    auto := decodeBoolField (getField e "auto") }

/-- The expense-record mapping of `loadFromUrl`. -/
def decodeExpenseEntry (e : Json) : Expense :=
  { payer := decodeStrField (getField e "payer"),
    amount := decodeNumField (getField e "amount"),
    note := decodeStrField (getField e "note") }

/-- The payment-record mapping of `loadFromUrl`. -/
def decodePaymentEntry (e : Json) : Payment :=
  { «from» := decodeStrField (getField e "from"),
    «to» := decodeStrField (getField e "to"),
    amount := decodeNumField (getField e "amount"),
    note := decodeStrField (getField e "note") }

/-- The state populated by `loadFromUrl` from a parsed payload: each array
is mapped record-wise with non-object entries dropped; a missing or
wrong-typed array leaves the initial empty list; `sid` is taken only when
it is a string; a non-object payload sets nothing (`hasUrlData` stays
false, modelled as `none`). -/
def decodePayload (j : Json) : Option AppState :=
  if isJsObject j then
    some
      { people :=
          match getField j "people" with
          | some (.arr entries) => (entries.filter isJsObject).map decodePersonEntry
          | _ => []
        expenses :=
          match getField j "expenses" with
          | some (.arr entries) => (entries.filter isJsObject).map decodeExpenseEntry
          | _ => []
        payments :=
          match getField j "payments" with
          | some (.arr entries) => (entries.filter isJsObject).map decodePaymentEntry
          | _ => []
        sid := decodeStrField (getField j "sid") }
  else none

/-- `JSON.stringify` serializes a non-finite number as `null`; the
conversion is applied when the payload value is built. -/
def jsNumToJson : JsNum → Json
  | some q => .num q
  | none => .null

/-- `buildSharePayload`: version, optional share id (`sid: shareId ||
undefined` — `undefined` keys are dropped by `JSON.stringify`), trimmed
people, normalized expenses and normalized payments. -/
def buildSharePayload (st : AppState) : Json :=
  .obj
    ([("v", .num 1)] ++
      (if st.sid = "" then [] else [("sid", .str st.sid)]) ++
      [("people", .arr (st.people.map (fun p => .obj
          [("name", .str (jsTrim p.name)),
           ("paid", .bool p.paid),
           ("paidAmount", jsNumToJson p.paidAmount),
           ("paidTo", .str p.paidTo),
           ("auto", .bool p.auto)]))),
       ("expenses", .arr ((normalizedExpenses st).map (fun e => .obj
          [("payer", .str e.payer),
           ("amount", .num e.amount),
           ("note", .str e.note)]))),
       ("payments", .arr ((normalizedPayments st).map (fun p => .obj
          [("from", .str p.«from»),
           ("to", .str p.«to»),
           ("amount", .num p.amount),
           ("note", .str p.note)])))])

/-- The normalized state the round-trip claim compares against: trimmed
people names (other person fields kept), normalized expenses and payments,
`sid` preserved. -/
def normalizeState (st : AppState) : AppState :=
  { people := st.people.map (fun p => { p with name := jsTrim p.name }),
    expenses := (normalizedExpenses st).map (fun e =>
      { payer := e.payer, amount := some e.amount, note := e.note }),
    payments := (normalizedPayments st).map (fun p =>
      { «from» := p.«from», «to» := p.«to», amount := some p.amount,
        note := p.note }),
    sid := st.sid }

/-! ## Share-string pipeline

`compressString`/`decompressString` and `loadFromUrl`, with the platform
primitives (`TextEncoder`/`TextDecoder`, `CompressionStream`,
`JSON.parse`/`JSON.stringify`) passed as parameters. -/

/-- The `u1.` (uncompressed) branch of `compressString`. -/
def encodeShareU1 (txtEnc : String → List Nat) (jsonStr : String) : String :=
  "u1." ++ base64UrlEncodeBytes (txtEnc jsonStr)

/-- The `c1.` (gzip) branch of `compressString`. -/
def encodeShareC1 (comp : List Nat → List Nat) (txtEnc : String → List Nat)
    (jsonStr : String) : String :=
  "c1." ++ base64UrlEncodeBytes (comp (txtEnc jsonStr))

/-- `decompressString`: dispatch on the three-character prefix (`c1.`
decompress, `u1.` plain decode, otherwise plain decode of the whole
string). -/
def decompressShare (decomp : List Nat → Option (List Nat))
    (txtDec : List Nat → Option String) (s : String) : Option String :=
  match s.data with
  | 'c' :: '1' :: '.' :: rest => do
    let bytes ← base64UrlDecodeToBytes (String.mk rest)
    let plain ← decomp bytes
    txtDec plain
  | 'u' :: '1' :: '.' :: rest => do
    let bytes ← base64UrlDecodeToBytes (String.mk rest)
    txtDec bytes
  | _ => do
    let bytes ← base64UrlDecodeToBytes s
    txtDec bytes

/-- The decode chain of `loadFromUrl`: decompress, `JSON.parse`, then the
defensive payload mapping; any failure yields `none` (the caller falls
back to the next state source). -/
def decodeShare (decomp : List Nat → Option (List Nat))
    (txtDec : List Nat → Option String) (parse : String → Option Json)
    (s : String) : Option AppState := do
  let txt ← decompressShare decomp txtDec s
  let j ← parse txt
  decodePayload j

/-! ## UTF-8 (model of `TextEncoder`/`TextDecoder`)

The encoder is standard UTF-8.  The decoder validates structure and scalar
range and returns `none` on malformed input (where `TextDecoder` would
emit replacement characters — no valid input is affected). -/

/-- UTF-8 bytes of one code point. -/
def utf8EncodeChar (c : Nat) : List Nat :=
  if c < 0x80 then [c]
  else if c < 0x800 then [0xC0 + c / 64, 0x80 + c % 64]
  else if c < 0x10000 then [0xE0 + c / 4096, 0x80 + c / 64 % 64, 0x80 + c % 64]
  else [0xF0 + c / 262144, 0x80 + c / 4096 % 64, 0x80 + c / 64 % 64, 0x80 + c % 64]

/-- Model of `TextEncoder.encode`. -/
def utf8Encode (s : String) : List Nat :=
  (s.data.map (fun c => utf8EncodeChar c.toNat)).flatten

/-- Decode UTF-8 bytes to code points. -/
def utf8DecodeList : List Nat → Option (List Nat)
  | [] => some []
  | b :: rest =>
    if b < 0x80 then (utf8DecodeList rest).map (fun cs => b :: cs)
    else if b < 0xC0 then none
    else if b < 0xE0 then
      match rest with
      | b1 :: rest1 =>
        if 0x80 ≤ b1 ∧ b1 < 0xC0 then
          (utf8DecodeList rest1).map (fun cs => ((b - 0xC0) * 64 + (b1 - 0x80)) :: cs)
        else none
      | [] => none
    else if b < 0xF0 then
      match rest with
      | b1 :: b2 :: rest2 =>
        if (0x80 ≤ b1 ∧ b1 < 0xC0) ∧ (0x80 ≤ b2 ∧ b2 < 0xC0) then
          (utf8DecodeList rest2).map (fun cs =>
            ((b - 0xE0) * 4096 + (b1 - 0x80) * 64 + (b2 - 0x80)) :: cs)
        else none
      | _ => none
    else if b < 0xF8 then
      match rest with
      | b1 :: b2 :: b3 :: rest3 =>
        if (0x80 ≤ b1 ∧ b1 < 0xC0) ∧ (0x80 ≤ b2 ∧ b2 < 0xC0) ∧
            (0x80 ≤ b3 ∧ b3 < 0xC0) then
          (utf8DecodeList rest3).map (fun cs =>
            ((b - 0xF0) * 262144 + (b1 - 0x80) * 4096 + (b2 - 0x80) * 64
              + (b3 - 0x80)) :: cs)
        else none
      | _ => none
    else none

/-- Model of `TextDecoder.decode`: structurally valid UTF-8 with scalar
code points only. -/
def utf8Decode (bytes : List Nat) : Option String :=
  (utf8DecodeList bytes).bind (fun cps =>
    if cps.all (fun n => decide (n < 0xD800) || (decide (0xE000 ≤ n) && decide (n < 0x110000)))
    then some (String.mk (cps.map Char.ofNat))
    else none)

/-! ## JSON parser and printer (model of `JSON.parse`/`JSON.stringify`)

Fuel-based recursive descent; `jsonParse` supplies ample fuel, so `none`
models a `SyntaxError` of `JSON.parse`.  Numbers are parsed exactly into
`ℚ` (`JSON.parse` rounds to binary floating point; the claims' inputs are
exact). -/

/-- An opening brace character. -/
def lbrace : Char := Char.ofNat 123

/-- A closing brace character. -/
def rbrace : Char := Char.ofNat 125

/-- JSON whitespace. -/
def isJsonWs (c : Char) : Bool := c = ' ' || c = '\t' || c = '\n' || c = '\r'

/-- Skip JSON whitespace. -/
def skipWs : List Char → List Char
  | c :: rest => if isJsonWs c then skipWs rest else c :: rest
  | [] => []

/-- ASCII digit test. -/
def isAsciiDigit (c : Char) : Bool := '0' ≤ c && c ≤ '9'

/-- Numeric value of a hex digit. -/
def hexVal (c : Char) : Option Nat :=
  if '0' ≤ c ∧ c ≤ '9' then some (c.toNat - '0'.toNat)
  else if 'a' ≤ c ∧ c ≤ 'f' then some (c.toNat - 'a'.toNat + 10)
  else if 'A' ≤ c ∧ c ≤ 'F' then some (c.toNat - 'A'.toNat + 10)
  else none

/-- Decimal digits to a natural number. -/
def digitsToNat (ds : List Char) : Nat :=
  ds.foldl (fun acc c => acc * 10 + (c.toNat - '0'.toNat)) 0

/-- Parse a JSON number (sign, integer part without leading zeros,
optional fraction, optional exponent). -/
def parseNumber (cs : List Char) : Option (ℚ × List Char) :=
  let signed : Bool × List Char :=
    match cs with
    | '-' :: r => (true, r)
    | _ => (false, cs)
  let neg := signed.1
  let ds := signed.2.takeWhile isAsciiDigit
  let cs1 := signed.2.dropWhile isAsciiDigit
  if hds : ds = [] then none
  else if ds.length > 1 ∧ ds.headD '0' = '0' then none
  else
    let intVal := digitsToNat ds
    let fracStep : Option (Option (List Char) × List Char) :=
      match cs1 with
      | '.' :: r =>
        let fs := r.takeWhile isAsciiDigit
        if fs = [] then none else some (some fs, r.dropWhile isAsciiDigit)
      | _ => some (none, cs1)
    match fracStep with
    | none => none
    | some (fracDs, cs2) =>
      let expStep : Option (Option (Bool × Nat) × List Char) :=
        match cs2 with
        | e :: r =>
          if e = 'e' ∨ e = 'E' then
            let esigned : Bool × List Char :=
              match r with
              | '-' :: r2 => (true, r2)
              | '+' :: r2 => (false, r2)
              | _ => (false, r)
            let es := esigned.2.takeWhile isAsciiDigit
            if es = [] then none
            else some (some (esigned.1, digitsToNat es), esigned.2.dropWhile isAsciiDigit)
          else some (none, cs2)
        | [] => some (none, cs2)
      match expStep with
      | none => none
      | some (expV, cs3) =>
        let mag : ℚ :=
          match fracDs with
          | none => (intVal : ℚ)
          | some fs =>
            ((intVal * 10 ^ fs.length + digitsToNat fs : ℕ) : ℚ) / ((10 ^ fs.length : ℕ) : ℚ)
        let mag2 : ℚ :=
          match expV with
          | none => mag
          | some (eneg, e) =>
            if eneg then mag / ((10 ^ e : ℕ) : ℚ) else mag * ((10 ^ e : ℕ) : ℚ)
        some (if neg then -mag2 else mag2, cs3)

/-- Parse the body of a JSON string after the opening quote, returning the
decoded characters (as code points) and the rest after the closing quote.
Surrogate pairs in `\u` escapes are combined; lone surrogates become
`U+FFFD` (JS strings are UTF-16 and can hold them, Lean strings cannot). -/
def parseStringBody : Nat → List Char → Option (List Nat × List Char)
  | 0, _ => none
  | _ + 1, [] => none
  | fuel + 1, c :: rest =>
    if c = '"' then some ([], rest)
    else if c = '\\' then
      match rest with
      | '"' :: r => (parseStringBody fuel r).map (fun p => ('"'.toNat :: p.1, p.2))
      | '\\' :: r => (parseStringBody fuel r).map (fun p => ('\\'.toNat :: p.1, p.2))
      | '/' :: r => (parseStringBody fuel r).map (fun p => ('/'.toNat :: p.1, p.2))
      | 'b' :: r => (parseStringBody fuel r).map (fun p => (8 :: p.1, p.2))
      | 'f' :: r => (parseStringBody fuel r).map (fun p => (12 :: p.1, p.2))
      | 'n' :: r => (parseStringBody fuel r).map (fun p => (10 :: p.1, p.2))
      | 'r' :: r => (parseStringBody fuel r).map (fun p => (13 :: p.1, p.2))
      | 't' :: r => (parseStringBody fuel r).map (fun p => (9 :: p.1, p.2))
      | 'u' :: h1 :: h2 :: h3 :: h4 :: r => do
        let v1 ← hexVal h1
        let v2 ← hexVal h2
        let v3 ← hexVal h3
        let v4 ← hexVal h4
        let code := v1 * 4096 + v2 * 256 + v3 * 16 + v4
        if 0xD800 ≤ code ∧ code < 0xDC00 then
          match r with
          | '\\' :: 'u' :: g1 :: g2 :: g3 :: g4 :: r2 => do
            let w1 ← hexVal g1
            let w2 ← hexVal g2
            let w3 ← hexVal g3
            let w4 ← hexVal g4
            let low := w1 * 4096 + w2 * 256 + w3 * 16 + w4
            if 0xDC00 ≤ low ∧ low < 0xE000 then
              (parseStringBody fuel r2).map (fun p =>
                ((0x10000 + (code - 0xD800) * 1024 + (low - 0xDC00)) :: p.1, p.2))
            else
              (parseStringBody fuel ('\\' :: 'u' :: g1 :: g2 :: g3 :: g4 :: r2)).map
                (fun p => (0xFFFD :: p.1, p.2))
          | _ => (parseStringBody fuel r).map (fun p => (0xFFFD :: p.1, p.2))
        else if 0xDC00 ≤ code ∧ code < 0xE000 then
          (parseStringBody fuel r).map (fun p => (0xFFFD :: p.1, p.2))
        else
          (parseStringBody fuel r).map (fun p => (code :: p.1, p.2))
      | _ => none
    else if c.toNat < 0x20 then none
    else (parseStringBody fuel rest).map (fun p => (c.toNat :: p.1, p.2))

mutual

/-- Parse one JSON value (after any leading whitespace is skipped here). -/
def parseValue : Nat → List Char → Option (Json × List Char)
  | 0, _ => none
  | fuel + 1, cs =>
    match skipWs cs with
    | 'n' :: 'u' :: 'l' :: 'l' :: rest => some (.null, rest)
    | 't' :: 'r' :: 'u' :: 'e' :: rest => some (.bool true, rest)
    | 'f' :: 'a' :: 'l' :: 's' :: 'e' :: rest => some (.bool false, rest)
    | '"' :: rest =>
      (parseStringBody fuel rest).map (fun p =>
        (.str (String.mk (p.1.map Char.ofNat)), p.2))
    | '[' :: rest => parseElems fuel rest
    | c :: rest =>
      if c = lbrace then parseFields fuel rest
      else (parseNumber (c :: rest)).map (fun p => (.num p.1, p.2))
    | [] => none

/-- Parse array elements after `[`. -/
def parseElems : Nat → List Char → Option (Json × List Char)
  | 0, _ => none
  | fuel + 1, cs =>
    match skipWs cs with
    | ']' :: rest => some (.arr [], rest)
    | cs1 => do
      let p ← parseValue fuel cs1
      parseElemsTail fuel [p.1] p.2

/-- Parse `, value`* `]`. -/
def parseElemsTail : Nat → List Json → List Char → Option (Json × List Char)
  | 0, _, _ => none
  | fuel + 1, acc, cs =>
    match skipWs cs with
    | ',' :: rest => do
      let p ← parseValue fuel rest
      parseElemsTail fuel (p.1 :: acc) p.2
    | ']' :: rest => some (.arr acc.reverse, rest)
    | _ => none

/-- Parse object members after the opening brace. -/
def parseFields : Nat → List Char → Option (Json × List Char)
  | 0, _ => none
  | fuel + 1, cs =>
    match skipWs cs with
    | c :: rest =>
      if c = rbrace then some (.obj [], rest)
      else if c = '"' then do
        let k ← parseStringBody fuel rest
        match skipWs k.2 with
        | ':' :: rest2 => do
          let v ← parseValue fuel rest2
          parseFieldsTail fuel [(String.mk (k.1.map Char.ofNat), v.1)] v.2
        | _ => none
      else none
    | [] => none

/-- Parse `, "key": value`* and the closing brace. -/
def parseFieldsTail : Nat → List (String × Json) → List Char →
    Option (Json × List Char)
  | 0, _, _ => none
  | fuel + 1, acc, cs =>
    match skipWs cs with
    | ',' :: rest =>
      (match skipWs rest with
      | '"' :: rest1 => do
        let k ← parseStringBody fuel rest1
        match skipWs k.2 with
        | ':' :: rest2 => do
          let v ← parseValue fuel rest2
          parseFieldsTail fuel ((String.mk (k.1.map Char.ofNat), v.1) :: acc) v.2
        | _ => none
      | _ => none)
    | c :: rest => if c = rbrace then some (.obj acc.reverse, rest) else none
    | [] => none

end

/-- Model of `JSON.parse`: parse one value and require only whitespace
after it; `none` is a `SyntaxError`. -/
def jsonParse (s : String) : Option Json :=
  match parseValue (4 * s.data.length + 4) s.data with
  | some (v, rest) => if skipWs rest = [] then some v else none
  | none => none

/-! ## JSON printer -/

/-- Hex digit character. -/
def hexDigit (n : Nat) : Char :=
  if n < 10 then Char.ofNat ('0'.toNat + n) else Char.ofNat ('a'.toNat + n - 10)

/-- `JSON.stringify` string escaping for one character. -/
def escChar (c : Char) : List Char :=
  if c = '"' then ['\\', '"']
  else if c = '\\' then ['\\', '\\']
  else if c = '\x08' then ['\\', 'b']
  else if c = '\x0c' then ['\\', 'f']
  else if c = '\n' then ['\\', 'n']
  else if c = '\r' then ['\\', 'r']
  else if c = '\t' then ['\\', 't']
  else if c.toNat < 0x20 then
    ['\\', 'u', '0', '0', hexDigit (c.toNat / 16), hexDigit (c.toNat % 16)]
  else [c]

/-- Escape a string body. -/
def escapeString (s : String) : String := String.mk ((s.data.map escChar).flatten)

/-- Digits of a natural number, most significant first (fuel-driven). -/
def natDigitsAux : Nat → Nat → List Char
  | 0, _ => []
  | _ + 1, 0 => []
  | fuel + 1, n => natDigitsAux fuel (n / 10) ++ [Char.ofNat ('0'.toNat + n % 10)]

/-- Decimal representation of a natural number. -/
def natToString (n : Nat) : String :=
  if n = 0 then "0" else String.mk (natDigitsAux (n + 1) n)

/-- Decimal digits of a fraction `num/den` (fuel-bounded, like the finite
decimal output of floating-point `JSON.stringify`). -/
def fracDigits : Nat → Nat → Nat → List Char
  | 0, _, _ => []
  | _ + 1, 0, _ => []
  | fuel + 1, num, den =>
    Char.ofNat ('0'.toNat + num * 10 / den) :: fracDigits fuel (num * 10 % den) den

/-- Decimal representation of a rational. -/
def numToString (q : ℚ) : String :=
  (if q.num < 0 then "-" else "") ++ natToString (q.num.natAbs / q.den) ++
    (if q.num.natAbs % q.den = 0 then ""
     else "." ++ String.mk (fracDigits 64 (q.num.natAbs % q.den) q.den))

mutual

/-- Print a JSON value (fuel-driven recursion). -/
def stringifyJson : Nat → Json → String
  | 0, _ => ""
  | fuel + 1, j =>
    match j with
    | .null => "null"
    | .bool true => "true"
    | .bool false => "false"
    | .num q => numToString q
    | .str s => "\"" ++ escapeString s ++ "\""
    | .arr elems => "[" ++ stringifyElems fuel elems ++ "]"
    | .obj fields => "\x7b" ++ stringifyFields fuel fields ++ "\x7d"

/-- Print array elements, comma separated. -/
def stringifyElems : Nat → List Json → String
  | 0, _ => ""
  | _ + 1, [] => ""
  | fuel + 1, [x] => stringifyJson fuel x
  | fuel + 1, x :: rest => stringifyJson fuel x ++ "," ++ stringifyElems fuel rest

/-- Print object members, comma separated. -/
def stringifyFields : Nat → List (String × Json) → String
  | 0, _ => ""
  | _ + 1, [] => ""
  | fuel + 1, [(k, v)] => "\"" ++ escapeString k ++ "\":" ++ stringifyJson fuel v
  | fuel + 1, (k, v) :: rest =>
    "\"" ++ escapeString k ++ "\":" ++ stringifyJson fuel v ++ "," ++
      stringifyFields fuel rest

end

/-! ## Helper lemmas -/

theorem foldl_add_eq {α : Type} (xs : List α) (f : α → ℚ) (a : ℚ) :
    xs.foldl (fun s e => s + f e) a = a + (xs.map f).sum := by
  induction xs generalizing a with
  | nil => simp
  | cons x xs ih => simp [ih, add_assoc]

theorem mget_nil {α : Type} (k : String) : mget ([] : JMap α) k = none := rfl

theorem mget_cons {α : Type} (k' : String) (v' : α) (rest : JMap α) (k : String) :
    mget ((k', v') :: rest) k = if k' = k then some v' else mget rest k := by
  by_cases h : k' = k <;> simp [mget, List.find?_cons, h]

theorem mget_msetAux_self {α : Type} (m : JMap α) (k : String) (v : α) :
    mget (msetAux m k v) k = some v := by
  induction m with
  | nil => simp [msetAux, mget_cons]
  | cons p rest ih =>
    obtain ⟨k', v'⟩ := p
    by_cases h : k' = k <;> simp [msetAux, h, mget_cons, ih]

theorem mget_msetAux_ne {α : Type} (m : JMap α) (k k' : String) (v : α)
    (h : k' ≠ k) : mget (msetAux m k v) k' = mget m k' := by
  have hne : k = k' → False := fun hh => h hh.symm
  induction m with
  | nil => simp [msetAux, mget_cons, if_neg hne]
  | cons p rest ih =>
    obtain ⟨k₀, v₀⟩ := p
    by_cases hk : k₀ = k
    · subst hk
      simp [msetAux, mget_cons, if_neg hne]
    · simp only [msetAux, if_neg hk, mget_cons, ih]

theorem mget_bumpKey_self (m : JMap ℚ) (k : String) (v : ℚ) :
    mget (bumpKey m k v) k = some ((mget m k).getD 0 + v) :=
  mget_msetAux_self m k _

theorem mget_bumpKey_ne (m : JMap ℚ) (k k' : String) (v : ℚ) (h : k' ≠ k) :
    mget (bumpKey m k v) k' = mget m k' :=
  mget_msetAux_ne m k k' _ h

theorem mget_foldl_bump {α : Type} (skip : α → Bool) (key : α → String) (f : α → ℚ)
    (xs : List α) (m : JMap ℚ) (k : String) :
    (mget (xs.foldl (fun acc a => if skip a then acc else bumpKey acc (key a) (f a)) m) k).getD 0
      = (mget m k).getD 0
        + (((xs.filter (fun a => !skip a && (key a == k))).map f).sum) := by
  induction xs generalizing m with
  | nil => simp
  | cons x xs ih =>
    simp only [List.foldl_cons, List.filter_cons]
    by_cases hs : skip x
    · simp only [hs, if_pos, Bool.not_true, Bool.false_and, if_neg, Bool.false_eq_true,
        not_false_iff]
      exact ih m
    · rw [if_neg hs]
      by_cases hk : key x = k
      · subst hk
        simp only [hs, Bool.not_false, Bool.true_and, beq_self_eq_true, if_pos]
        rw [ih, mget_bumpKey_self]
        simp [add_assoc, add_comm (f x)]
      · have hbk : (key x == k) = false := by simp [hk]
        simp only [hs, Bool.not_false, Bool.true_and, hbk, Bool.false_eq_true, if_neg,
          not_false_iff]
        rw [ih, mget_bumpKey_ne _ _ _ _ (fun hh => hk hh.symm)]

theorem jsToLower_empty_iff (s : String) : jsToLower s = "" ↔ s = "" := by
  constructor
  · intro h
    cases s with
    | mk data =>
      cases data with
      | nil => rfl
      | cons c cs => exact absurd (congrArg String.data h) (by simp [jsToLower])
  · intro h; subst h; rfl

theorem mem_uniqueAux {x : String} :
    ∀ (l seen : List String), x ∈ uniqueAux l seen → x ∈ l := by
  intro l
  induction l with
  | nil => intro seen h; simp [uniqueAux] at h
  | cons n rest ih =>
    intro seen h
    unfold uniqueAux at h
    by_cases hc : jsToLower n ∈ seen
    · rw [if_pos hc] at h
      exact List.mem_cons_of_mem _ (ih _ h)
    · rw [if_neg hc] at h
      rcases List.mem_cons.mp h with h' | h'
      · exact h' ▸ List.mem_cons_self _ _
      · exact List.mem_cons_of_mem _ (ih _ h')

theorem mem_uniquePeople_ne_empty {st : AppState} {p : String}
    (hp : p ∈ uniquePeople st) : p ≠ "" := by
  have h1 : p ∈ trimmedPeople st := mem_uniqueAux _ _ hp
  have h2 := List.of_mem_filter h1
  intro h
  subst h
  simp [String.length] at h2

theorem mem_normalizedPayments {st : AppState} {pm : NPayment}
    (h : pm ∈ normalizedPayments st) :
    (pm.«from» == "") = false ∧ (pm.«to» == "") = false
      ∧ (pm.«from» == pm.«to») = false := by
  unfold normalizedPayments at h
  have := List.of_mem_filter h
  simpa [and_assoc] using this

theorem paidByName_getD (st : AppState) (k : String) :
    (mget (paidByName st) k).getD 0
      = (((normalizedExpenses st).filter
          (fun e => !(e.payer == "") && (jsToLower e.payer == k))).map
        (fun e => e.amount)).sum := by
  have := mget_foldl_bump (fun e => e.payer == "") (fun e => jsToLower e.payer)
    (fun e => e.amount) (normalizedExpenses st) [] k
  simpa [paidByName, mget_nil] using this

theorem sentByName_getD (st : AppState) (k : String) :
    (mget (sentByName st) k).getD 0
      = (((normalizedPayments st).filter
          (fun p => !(p.«from» == "" || p.«to» == "" || decide (p.amount ≤ 0))
            && (jsToLower p.«from» == k))).map (fun p => p.amount)).sum := by
  have := mget_foldl_bump
    (fun p : NPayment => p.«from» == "" || p.«to» == "" || decide (p.amount ≤ 0))
    (fun p => jsToLower p.«from») (fun p => p.amount) (normalizedPayments st) [] k
  simpa [sentByName, mget_nil] using this

theorem receivedByName_getD (st : AppState) (k : String) :
    (mget (receivedByName st) k).getD 0
      = (((normalizedPayments st).filter
          (fun p => !(p.«from» == "" || p.«to» == "" || decide (p.amount ≤ 0))
            && (jsToLower p.«to» == k))).map (fun p => p.amount)).sum := by
  have := mget_foldl_bump
    (fun p : NPayment => p.«from» == "" || p.«to» == "" || decide (p.amount ≤ 0))
    (fun p => jsToLower p.«to») (fun p => p.amount) (normalizedPayments st) [] k
  simpa [receivedByName, mget_nil] using this

theorem paid_lookup (st : AppState) (p : String) (hp : jsToLower p ≠ "") :
    (mget (paidByName st) (jsToLower p)).getD 0 = paidOf st p := by
  rw [paidByName_getD, paidOf]
  congr 1
  congr 1
  apply List.filter_congr
  intro e he
  by_cases h : e.payer = ""
  · have h0 : jsToLower e.payer = "" := by rw [h]; rfl
    have hne : (jsToLower e.payer == jsToLower p) = false := by
      rw [h0]
      exact beq_eq_false_iff_ne.mpr (fun hh => hp hh.symm)
    rw [hne]
    simp
  · simp [h]

theorem sent_lookup (st : AppState) (p : String) :
    (mget (sentByName st) (jsToLower p)).getD 0 = sentOf st p := by
  rw [sentByName_getD, sentOf]
  congr 1
  congr 1
  apply List.filter_congr
  intro pm hpm
  obtain ⟨h1, h2, _⟩ := mem_normalizedPayments hpm
  have hd : (!decide (pm.amount ≤ 0)) = decide (0 < pm.amount) := by
    simp [← decide_not, not_le]
  simp [h1, h2, hd]

theorem received_lookup (st : AppState) (p : String) :
    (mget (receivedByName st) (jsToLower p)).getD 0 = receivedOf st p := by
  rw [receivedByName_getD, receivedOf]
  congr 1
  congr 1
  apply List.filter_congr
  intro pm hpm
  obtain ⟨h1, h2, _⟩ := mem_normalizedPayments hpm
  have hd : (!decide (pm.amount ≤ 0)) = decide (0 < pm.amount) := by
    simp [← decide_not, not_le]
  simp [h1, h2, hd]

theorem balances_length (st : AppState) :
    (balances st).length = (uniquePeople st).length :=
  List.length_map _ _

theorem normalizedPayments_pos_iff (st : AppState) :
    0 < (normalizedPayments st).length ↔
      ∃ pm ∈ st.payments, jsTrim pm.«from» ≠ "" ∧ jsTrim pm.«to» ≠ "" ∧
        jsTrim pm.«from» ≠ jsTrim pm.«to» := by
  rw [List.length_pos_iff_exists_mem]
  constructor
  · rintro ⟨np, hnp⟩
    unfold normalizedPayments at hnp
    rw [List.mem_filter] at hnp
    obtain ⟨hmem, hcond⟩ := hnp
    rw [List.mem_map] at hmem
    obtain ⟨pm, hpm, rfl⟩ := hmem
    refine ⟨pm, hpm, ?_⟩
    simpa [and_assoc] using hcond
  · rintro ⟨pm, hpm, h1, h2, h3⟩
    refine ⟨{ «from» := jsTrim pm.«from», «to» := jsTrim pm.«to»,
              amount := clampNum pm.amount, note := jsTrim pm.note }, ?_⟩
    unfold normalizedPayments
    exact List.mem_filter.mpr ⟨List.mem_map_of_mem _ hpm, by simp [h1, h2, h3]⟩

/-! ## Claim theorems -/

/-- **C4**: `perPersonShare` equals `totalSpent` divided by the number of
unique people when both are positive, and `0` otherwise; the division only
ever happens with a positive divisor. -/
theorem perPersonShare_eq (st : AppState) :
    perPersonShare st =
      if 0 < totalSpent st ∧ 0 < (uniquePeople st).length
      then totalSpent st / (uniquePeople st).length
      else 0 := by
  unfold perPersonShare
  by_cases h : 0 < totalSpent st ∧ 0 < (uniquePeople st).length
  · rw [if_pos h, if_neg]
    rintro (h' | h')
    · omega
    · exact absurd h.1 (not_lt.mpr h')
  · rw [if_neg h, if_pos]
    rcases not_and_or.mp h with h' | h'
    · exact Or.inr (not_lt.mp h')
    · exact Or.inl (by omega)

/-- **C5**: `totalSpent` is the sum over all expenses of their clamped
amounts: a negative amount contributes `0` and a non-finite amount
contributes `0`. -/
theorem totalSpent_eq_sum_clamped (st : AppState) :
    totalSpent st =
      (st.expenses.map (fun e =>
        match e.amount with
        | none => 0
        | some q => if q < 0 then 0 else q)).sum := by
  unfold totalSpent
  rw [foldl_add_eq (normalizedExpenses st) (fun e => e.amount) 0, zero_add]
  unfold normalizedExpenses
  rw [List.map_map]
  congr 1
  apply List.map_congr_left
  intro e he
  show clampNum e.amount = _
  cases e.amount with
  | none => rfl
  | some q =>
    show max 0 q = _
    by_cases h : q < 0
    · simp [h, max_eq_left (le_of_lt h)]
    · simp [h, max_eq_right (not_lt.mp h)]

/-- **C3**: for every person `p` in `uniquePeople`, the balances view has an
entry for `p` whose balance equals `paid(p) + sent(p) - received(p) -
perPersonShare`, where `paid(p)` sums normalized expense amounts whose payer
matches `p` case-insensitively, and `sent(p)`/`received(p)` sum valid
positive payment amounts keyed case-insensitively by `from`/`to`;
a positive balance means the person receives, a negative one that they owe. -/
theorem balance_eq_paid_sent_received_share (st : AppState) (p : String)
    (hp : p ∈ uniquePeople st) :
    ∃ b ∈ balances st, b.name = p ∧
      b.balance = paidOf st p + sentOf st p - receivedOf st p - perPersonShare st := by
  have hne : p ≠ "" := mem_uniquePeople_ne_empty hp
  have hlow : jsToLower p ≠ "" := fun hh => hne ((jsToLower_empty_iff p).mp hh)
  refine ⟨_, List.mem_map_of_mem _ hp, rfl, ?_⟩
  show (mget (paidByName st) (jsToLower p)).getD 0
      + (mget (sentByName st) (jsToLower p)).getD 0
      - (mget (receivedByName st) (jsToLower p)).getD 0
      - perPersonShare st = _
  rw [paid_lookup st p hlow, sent_lookup st p, received_lookup st p]

/-- **C2**: `allSettled` is true iff something was spent, there are at least
two unique people, at least one valid payment exists (non-empty trimmed
`from` and `to`, `from ≠ to`), and every unique person's balance is within
the `0.01` tolerance. -/
theorem allSettled_iff (st : AppState) :
    allSettled st = true ↔
      (0 < totalSpent st ∧ 2 ≤ (uniquePeople st).length ∧
        (∃ pm ∈ st.payments, jsTrim pm.«from» ≠ "" ∧ jsTrim pm.«to» ≠ "" ∧
          jsTrim pm.«from» ≠ jsTrim pm.«to») ∧
        ∀ b ∈ balances st, |b.balance| ≤ 1 / 100) := by
  unfold allSettled
  simp only [Bool.and_eq_true, decide_eq_true_eq, List.all_eq_true]
  constructor
  · rintro ⟨⟨⟨⟨h1, h2⟩, h3⟩, h4⟩, h5⟩
    exact ⟨h1, h2, (normalizedPayments_pos_iff st).mp h4,
      fun b hb => by simpa [settlementEpsilon] using h5 b hb⟩
  · rintro ⟨h1, h2, h3, h4⟩
    refine ⟨⟨⟨⟨h1, h2⟩, ?_⟩, (normalizedPayments_pos_iff st).mpr h3⟩,
      fun b hb => by simpa [settlementEpsilon] using h4 b hb⟩
    rw [balances_length]
    omega

/-- **C6**: a payment whose `from` equals its `to`, or whose `from` or `to`
trims to the empty string, is excluded from all computations: adding it to
the state changes neither `normalizedPayments`, nor `sentByName`,
`receivedByName`, `balances`, nor `allSettled` (which counts valid
payments). -/
theorem invalid_payment_excluded (st : AppState) (pm : Payment)
    (h : pm.«from» = pm.«to» ∨ jsTrim pm.«from» = "" ∨ jsTrim pm.«to» = "") :
    normalizedPayments { st with payments := st.payments ++ [pm] }
        = normalizedPayments st ∧
      sentByName { st with payments := st.payments ++ [pm] } = sentByName st ∧
      receivedByName { st with payments := st.payments ++ [pm] }
        = receivedByName st ∧
      balances { st with payments := st.payments ++ [pm] } = balances st ∧
      allSettled { st with payments := st.payments ++ [pm] } = allSettled st := by
  have hNP : normalizedPayments { st with payments := st.payments ++ [pm] }
      = normalizedPayments st := by
    unfold normalizedPayments
    have hc : (!(jsTrim pm.«from» == "") && !(jsTrim pm.«to» == "") &&
        !(jsTrim pm.«from» == jsTrim pm.«to»)) = false := by
      rcases h with h | h | h
      · have hft : jsTrim pm.«from» = jsTrim pm.«to» := by rw [h]
        simp [hft]
      · simp [h]
      · simp [h]
    simp [List.filter_cons, hc]
  have hS : sentByName { st with payments := st.payments ++ [pm] }
      = sentByName st := by
    unfold sentByName; rw [hNP]
  have hR : receivedByName { st with payments := st.payments ++ [pm] }
      = receivedByName st := by
    unfold receivedByName; rw [hNP]
  have hB : balances { st with payments := st.payments ++ [pm] }
      = balances st := by
    unfold balances
    simp only [hS, hR]
    rfl
  refine ⟨hNP, hS, hR, hB, ?_⟩
  unfold allSettled
  rw [hNP, hB]
  rfl

/-- Witness for C3: the theorem applied to a concrete two-person state. -/

theorem balance_eq_paid_sent_received_share_witness :
    ∃ b ∈ balances ⟨[⟨"Alice", false, some 0, "", false⟩,
        ⟨"Bob", false, some 0, "", false⟩], [⟨"Alice", some 90, ""⟩], [], ""⟩,
      b.name = "Alice" ∧
      b.balance =
        paidOf ⟨[⟨"Alice", false, some 0, "", false⟩,
            ⟨"Bob", false, some 0, "", false⟩], [⟨"Alice", some 90, ""⟩], [], ""⟩ "Alice"
          + sentOf ⟨[⟨"Alice", false, some 0, "", false⟩,
            ⟨"Bob", false, some 0, "", false⟩], [⟨"Alice", some 90, ""⟩], [], ""⟩ "Alice"
          - receivedOf ⟨[⟨"Alice", false, some 0, "", false⟩,
            ⟨"Bob", false, some 0, "", false⟩], [⟨"Alice", some 90, ""⟩], [], ""⟩ "Alice"
          - perPersonShare ⟨[⟨"Alice", false, some 0, "", false⟩,
            ⟨"Bob", false, some 0, "", false⟩], [⟨"Alice", some 90, ""⟩], [], ""⟩ :=
  balance_eq_paid_sent_received_share _ "Alice" (by decide)

/-- Witness for C6: the theorem applied to a concrete state and a
self-payment. -/
theorem invalid_payment_excluded_witness :
    normalizedPayments { (⟨[], [], [⟨"x", "y", some 2, ""⟩], ""⟩ : AppState) with
        payments := [⟨"x", "y", some 2, ""⟩] ++ [⟨"a", "a", some 5, ""⟩] }
        = normalizedPayments ⟨[], [], [⟨"x", "y", some 2, ""⟩], ""⟩ ∧
      sentByName { (⟨[], [], [⟨"x", "y", some 2, ""⟩], ""⟩ : AppState) with
        payments := [⟨"x", "y", some 2, ""⟩] ++ [⟨"a", "a", some 5, ""⟩] }
        = sentByName ⟨[], [], [⟨"x", "y", some 2, ""⟩], ""⟩ ∧
      receivedByName { (⟨[], [], [⟨"x", "y", some 2, ""⟩], ""⟩ : AppState) with
        payments := [⟨"x", "y", some 2, ""⟩] ++ [⟨"a", "a", some 5, ""⟩] }
        = receivedByName ⟨[], [], [⟨"x", "y", some 2, ""⟩], ""⟩ ∧
      balances { (⟨[], [], [⟨"x", "y", some 2, ""⟩], ""⟩ : AppState) with
        payments := [⟨"x", "y", some 2, ""⟩] ++ [⟨"a", "a", some 5, ""⟩] }
        = balances ⟨[], [], [⟨"x", "y", some 2, ""⟩], ""⟩ ∧
      allSettled { (⟨[], [], [⟨"x", "y", some 2, ""⟩], ""⟩ : AppState) with
        payments := [⟨"x", "y", some 2, ""⟩] ++ [⟨"a", "a", some 5, ""⟩] }
        = allSettled ⟨[], [], [⟨"x", "y", some 2, ""⟩], ""⟩ :=
  invalid_payment_excluded ⟨[], [], [⟨"x", "y", some 2, ""⟩], ""⟩
    ⟨"a", "a", some 5, ""⟩ (Or.inl rfl)

/-! ## Base64 round-trip -/

theorem b64Index_b64Char {n : Nat} (h : n < 64) : b64Index (b64Char n) = some n := by
  have hall : ∀ m : Fin 64, b64Index (b64Char m.val) = some m.val := by decide
  exact hall ⟨n, h⟩

theorem urlBack_urlFwd_b64Char {n : Nat} (h : n < 64) :
    urlBack (urlFwd (b64Char n)) = b64Char n := by
  have hall : ∀ m : Fin 64, urlBack (urlFwd (b64Char m.val)) = b64Char m.val := by decide
  exact hall ⟨n, h⟩

theorem urlFwd_b64Char_ne_eq {n : Nat} (h : n < 64) : urlFwd (b64Char n) ≠ '=' := by
  have hall : ∀ m : Fin 64, urlFwd (b64Char m.val) ≠ '=' := by decide
  exact hall ⟨n, h⟩

theorem b64Char_ne_eq {n : Nat} (h : n < 64) : b64Char n ≠ '=' := by
  have hall : ∀ m : Fin 64, b64Char m.val ≠ '=' := by decide
  exact hall ⟨n, h⟩

theorem btoaChars_eq : ∀ bytes, btoaChars bytes
    = b64Body bytes ++ List.replicate (b64PadLen bytes) '='
  | [] => rfl
  | [b0] => rfl
  | [b0, b1] => rfl
  | b0 :: b1 :: b2 :: rest => by
    simp only [btoaChars, b64Body, b64PadLen, List.cons_append]
    rw [btoaChars_eq rest]

theorem b64Body_chars : ∀ bytes, (∀ b ∈ bytes, b < 256) →
    ∀ c ∈ b64Body bytes, ∃ n, n < 64 ∧ c = b64Char n
  | [], _, c, hc => by simp [b64Body] at hc
  | [b0], h, c, hc => by
    have hb0 : b0 < 256 := h b0 (by simp)
    simp only [b64Body, List.mem_cons, List.not_mem_nil, or_false] at hc
    rcases hc with rfl | rfl
    · exact ⟨b0 / 4, by omega, rfl⟩
    · exact ⟨b0 % 4 * 16, by omega, rfl⟩
  | [b0, b1], h, c, hc => by
    have hb0 : b0 < 256 := h b0 (by simp)
    have hb1 : b1 < 256 := h b1 (by simp)
    simp only [b64Body, List.mem_cons, List.not_mem_nil, or_false] at hc
    rcases hc with rfl | rfl | rfl
    · exact ⟨b0 / 4, by omega, rfl⟩
    · exact ⟨b0 % 4 * 16 + b1 / 16, by omega, rfl⟩
    · exact ⟨b1 % 16 * 4, by omega, rfl⟩
  | b0 :: b1 :: b2 :: rest, h, c, hc => by
    have hb0 : b0 < 256 := h b0 (by simp)
    have hb1 : b1 < 256 := h b1 (by simp)
    have hb2 : b2 < 256 := h b2 (by simp)
    simp only [b64Body, List.mem_cons] at hc
    rcases hc with rfl | rfl | rfl | rfl | hm
    · exact ⟨b0 / 4, by omega, rfl⟩
    · exact ⟨b0 % 4 * 16 + b1 / 16, by omega, rfl⟩
    · exact ⟨b1 % 16 * 4 + b2 / 64, by omega, rfl⟩
    · exact ⟨b2 % 64, by omega, rfl⟩
    · exact b64Body_chars rest
        (fun b hb => h b (by simp only [List.mem_cons] at hb ⊢; tauto)) c hm

theorem b64Body_length_mod : ∀ bytes,
    (b64Body bytes).length % 4 = (4 - b64PadLen bytes) % 4 ∧ b64PadLen bytes ≤ 2
  | [] => by simp [b64Body, b64PadLen]
  | [b0] => by simp [b64Body, b64PadLen]
  | [b0, b1] => by simp [b64Body, b64PadLen]
  | b0 :: b1 :: b2 :: rest => by
    obtain ⟨h1, h2⟩ := b64Body_length_mod rest
    simp only [b64Body, b64PadLen, List.length_cons]
    exact ⟨by omega, h2⟩

theorem b64DecodeBody_b64Body : ∀ bytes, (∀ b ∈ bytes, b < 256) →
    b64DecodeBody (b64Body bytes) = some bytes
  | [], _ => rfl
  | [b0], h => by
    have hb0 : b0 < 256 := h b0 (by simp)
    simp only [b64Body, b64DecodeBody]
    rw [b64Index_b64Char (by omega), b64Index_b64Char (by omega)]
    simp only [Option.bind_eq_bind, Option.some_bind, Option.some.injEq]
    have : b0 / 4 * 4 + b0 % 4 * 16 / 16 = b0 := by omega
    rw [this]
    rfl
  | [b0, b1], h => by
    have hb0 : b0 < 256 := h b0 (by simp)
    have hb1 : b1 < 256 := h b1 (by simp)
    simp only [b64Body, b64DecodeBody]
    rw [b64Index_b64Char (by omega), b64Index_b64Char (by omega),
      b64Index_b64Char (by omega)]
    simp only [Option.bind_eq_bind, Option.some_bind, Option.some.injEq]
    have e0 : b0 / 4 * 4 + (b0 % 4 * 16 + b1 / 16) / 16 = b0 := by omega
    have e1 : (b0 % 4 * 16 + b1 / 16) % 16 * 16 + b1 % 16 * 4 / 4 = b1 := by omega
    rw [e0, e1]
    rfl
  | b0 :: b1 :: b2 :: rest, h => by
    have hb0 : b0 < 256 := h b0 (by simp)
    have hb1 : b1 < 256 := h b1 (by simp)
    have hb2 : b2 < 256 := h b2 (by simp)
    have ih := b64DecodeBody_b64Body rest
      (fun b hb => h b (by simp only [List.mem_cons] at hb ⊢; tauto))
    simp only [b64Body, b64DecodeBody]
    rw [b64Index_b64Char (by omega), b64Index_b64Char (by omega),
      b64Index_b64Char (by omega), b64Index_b64Char (by omega)]
    simp only [Option.bind_eq_bind, Option.some_bind]
    rw [ih]
    simp only [Option.some_bind, Option.some.injEq]
    have e0 : b0 / 4 * 4 + (b0 % 4 * 16 + b1 / 16) / 16 = b0 := by omega
    have e1 : (b0 % 4 * 16 + b1 / 16) % 16 * 16 + (b1 % 16 * 4 + b2 / 64) / 4 = b1 := by
      omega
    have e2 : (b1 % 16 * 4 + b2 / 64) % 4 * 64 + b2 % 64 = b2 := by omega
    rw [e0, e1, e2]
    rfl

theorem dropWhile_replicate_eq (p : Nat) (xs : List Char) :
    List.dropWhile (fun c => c = '=') (List.replicate p '=' ++ xs)
      = List.dropWhile (fun c => c = '=') xs := by
  induction p with
  | zero => simp
  | succ p ih => simp [List.replicate_succ, List.dropWhile_cons, ih]

theorem stripTrailingEq_append (xs : List Char) (p : Nat)
    (hx : ∀ c ∈ xs, c ≠ '=') :
    stripTrailingEq (xs ++ List.replicate p '=') = xs := by
  unfold stripTrailingEq
  rw [List.reverse_append, List.reverse_replicate, dropWhile_replicate_eq]
  cases hxs : xs.reverse with
  | nil =>
    have : xs = [] := by simpa using congrArg List.reverse hxs
    simp [this]
  | cons c t =>
    have hc : c ∈ xs := by
      rw [← List.mem_reverse, hxs]; exact List.mem_cons_self _ _
    have hdec : (decide (c = '=')) = false := decide_eq_false (hx c hc)
    rw [List.dropWhile_cons]
    simp only [hdec, Bool.false_eq_true, if_neg, not_false_iff]
    rw [← hxs, List.reverse_reverse]

theorem getLast?_ne_eq (xs : List Char) (hx : ∀ c ∈ xs, c ≠ '=') :
    ¬(xs.getLast? = some '=') := by
  intro h
  exact hx '=' (List.mem_of_mem_getLast? (by rw [Option.mem_def, h])) rfl

theorem stripPad_append (xs : List Char) (p : Nat) (hp : p ≤ 2)
    (hx : ∀ c ∈ xs, c ≠ '=') :
    stripPad (xs ++ List.replicate p '=') = xs := by
  have hne := getLast?_ne_eq xs hx
  have step : ∀ ys : List Char, stripPad (ys ++ ['=']) = if ys.getLast? = some '='
      then ys.dropLast else ys := by
    intro ys
    show (if (if (ys ++ ['=']).getLast? = some '=' then (ys ++ ['=']).dropLast
            else ys ++ ['=']).getLast? = some '='
          then (if (ys ++ ['=']).getLast? = some '=' then (ys ++ ['=']).dropLast
            else ys ++ ['=']).dropLast
          else (if (ys ++ ['=']).getLast? = some '=' then (ys ++ ['=']).dropLast
            else ys ++ ['='])) = _
    rw [List.getLast?_concat, if_pos rfl, List.dropLast_concat]
  interval_cases p
  · show stripPad (xs ++ []) = xs
    rw [List.append_nil]
    show (if (if xs.getLast? = some '=' then xs.dropLast else xs).getLast? = some '='
          then (if xs.getLast? = some '=' then xs.dropLast else xs).dropLast
          else (if xs.getLast? = some '=' then xs.dropLast else xs)) = xs
    rw [if_neg hne, if_neg hne]
  · have h1 : xs ++ List.replicate 1 '=' = xs ++ ['='] := rfl
    rw [h1, step xs, if_neg hne]
  · have h2 : xs ++ List.replicate 2 '=' = (xs ++ ['=']) ++ ['='] := by simp
    rw [h2, step (xs ++ ['=']), List.getLast?_concat, if_pos rfl,
      List.dropLast_concat]

theorem base64url_roundtrip_aux (bytes : List Nat) (h : ∀ b ∈ bytes, b < 256) :
    base64UrlDecodeToBytes (base64UrlEncodeBytes bytes) = some bytes := by
  have hchars := b64Body_chars bytes h
  have hne : ∀ c ∈ (b64Body bytes).map urlFwd, c ≠ '=' := by
    intro c hc
    rw [List.mem_map] at hc
    obtain ⟨c0, hc0, rfl⟩ := hc
    obtain ⟨n, hn, rfl⟩ := hchars c0 hc0
    exact urlFwd_b64Char_ne_eq hn
  have hbody_ne : ∀ c ∈ b64Body bytes, c ≠ '=' := by
    intro c hc
    obtain ⟨n, hn, rfl⟩ := hchars c hc
    exact b64Char_ne_eq hn
  have henc : base64UrlEncodeBytes bytes = String.mk ((b64Body bytes).map urlFwd) := by
    unfold base64UrlEncodeBytes
    rw [btoaChars_eq, List.map_append]
    have hrep : List.map urlFwd (List.replicate (b64PadLen bytes) '=')
        = List.replicate (b64PadLen bytes) '=' := by
      rw [List.map_replicate]; rfl
    rw [hrep, stripTrailingEq_append _ _ hne]
  rw [henc]
  show (let base := ((b64Body bytes).map urlFwd).map urlBack
        let pad := if base.length % 4 ≠ 0
          then List.replicate (4 - base.length % 4) '=' else []
        atobChars (base ++ pad))
      = some bytes
  have hback : ((b64Body bytes).map urlFwd).map urlBack = b64Body bytes := by
    rw [List.map_map]
    have hpt : ∀ c ∈ b64Body bytes, (urlBack ∘ urlFwd) c = id c := by
      intro c hc
      obtain ⟨n, hn, rfl⟩ := hchars c hc
      exact urlBack_urlFwd_b64Char hn
    rw [List.map_congr_left hpt, List.map_id]
  simp only [hback]
  obtain ⟨hmod, hple⟩ := b64Body_length_mod bytes
  have hpad : (if (b64Body bytes).length % 4 ≠ 0
      then List.replicate (4 - (b64Body bytes).length % 4) '=' else [])
      = List.replicate (b64PadLen bytes) '=' := by
    interval_cases hb : b64PadLen bytes
    · rw [if_neg (by omega)]
      rfl
    · rw [if_pos (by omega)]
      have h1 : 4 - (b64Body bytes).length % 4 = 1 := by omega
      rw [h1]
    · rw [if_pos (by omega)]
      have h2 : 4 - (b64Body bytes).length % 4 = 2 := by omega
      rw [h2]
  simp only [hpad]
  unfold atobChars
  rw [if_pos (by simp [List.length_append, List.length_replicate]; omega)]
  rw [stripPad_append _ _ hple hbody_ne]
  exact b64DecodeBody_b64Body bytes h

/-- **C9**: for every byte array `b` (bytes below 256),
`base64UrlDecodeToBytes (base64UrlEncodeBytes b)` succeeds and returns `b`:
the base64url encoder (standard base64 with `+`→`-`, `/`→`_`, trailing `=`
stripped) and the decoder (which restores padding to a multiple of four)
are mutually inverse on encode-then-decode. -/
theorem base64url_encode_decode_roundtrip (bytes : List Nat)
    (h : ∀ b ∈ bytes, b < 256) :
    base64UrlDecodeToBytes (base64UrlEncodeBytes bytes) = some bytes :=
  base64url_roundtrip_aux bytes h

/-- Witness for C9: round trip at a concrete byte list exercising all three
padding shapes via its prefixes is not needed; one list with padding 2. -/
theorem base64url_encode_decode_roundtrip_witness :
    base64UrlDecodeToBytes (base64UrlEncodeBytes [0, 255, 62, 63, 17]) = some [0, 255, 62, 63, 17] :=
  base64url_encode_decode_roundtrip [0, 255, 62, 63, 17] (by decide)

/-- **C10**: `removePerson index` leaves the state unchanged when the index
is out of range, the person's trimmed name is empty, or the person is the
case-insensitive payer of some normalized expense with positive amount;
otherwise it removes the person entry and every payment whose trimmed
`from` or `to` matches the person's name case-insensitively.  Expenses are
unchanged in all cases. -/
theorem removePerson_spec (st : AppState) (index : Nat) :
    ((st.people[index]? = none ∨
        (∃ person, st.people[index]? = some person ∧
          (jsTrim person.name = "" ∨
            ∃ e ∈ normalizedExpenses st,
              jsToLower e.payer = jsToLower (jsTrim person.name) ∧ 0 < e.amount))) →
      removePerson st index = st) ∧
    (∀ person, st.people[index]? = some person → jsTrim person.name ≠ "" →
      (∀ e ∈ normalizedExpenses st,
        jsToLower e.payer = jsToLower (jsTrim person.name) → e.amount ≤ 0) →
      (removePerson st index).people = st.people.eraseIdx index ∧
        (removePerson st index).payments = st.payments.filter (fun pm =>
          decide (jsToLower (jsTrim pm.«from») ≠ jsToLower (jsTrim person.name)) &&
          decide (jsToLower (jsTrim pm.«to») ≠ jsToLower (jsTrim person.name)))) ∧
    (removePerson st index).expenses = st.expenses := by
  refine ⟨?_, ?_, ?_⟩
  · rintro (hnone | ⟨person, hsome, hcase⟩)
    · simp [removePerson, hnone]
    · rcases hcase with hempty | ⟨e, he, hkey, hamt⟩
      · have : jsToLower (jsTrim person.name) = "" := by
          rw [hempty]; rfl
        simp [removePerson, hsome, this]
      · by_cases hz : jsToLower (jsTrim person.name) = ""
        · simp [removePerson, hsome, hz]
        · have hany : (normalizedExpenses st).any
              (fun e => jsToLower e.payer == jsToLower (jsTrim person.name)
                && decide (0 < e.amount)) = true := by
            rw [List.any_eq_true]
            exact ⟨e, he, by simp [hkey, hamt]⟩
          simp [removePerson, hsome, hz, hany]
  · intro person hsome hname hnopaid
    have hkeyne : jsToLower (jsTrim person.name) ≠ "" :=
      fun hz => hname ((jsToLower_empty_iff _).mp hz)
    have hany : (normalizedExpenses st).any
        (fun e => jsToLower e.payer == jsToLower (jsTrim person.name)
          && decide (0 < e.amount)) = false := by
      rw [List.any_eq_false]
      intro e he
      simp only [Bool.and_eq_true, beq_iff_eq, decide_eq_true_eq, not_and]
      intro hk
      exact not_lt.mpr (hnopaid e he hk)
    constructor
    · simp [removePerson, hsome, hkeyne, hany]
    · simp only [removePerson, hsome, if_neg hkeyne, hany, Bool.false_eq_true,
        if_neg, not_false_iff]
      apply List.filter_congr
      intro pm hpm
      by_cases h1 : jsToLower (jsTrim pm.«from») = jsToLower (jsTrim person.name) <;>
        by_cases h2 : jsToLower (jsTrim pm.«to») = jsToLower (jsTrim person.name) <;>
          simp [h1, h2]
  · unfold removePerson
    cases hidx : st.people[index]? with
    | none => rfl
    | some person =>
      by_cases hkey : jsToLower (jsTrim person.name) = ""
      · simp [hkey]
      · by_cases hany : (normalizedExpenses st).any
            (fun e => jsToLower e.payer == jsToLower (jsTrim person.name)
              && decide (0 < e.amount))
        · simp [hkey, hany]
        · simp [hkey, hany]

/-- Witness for C10: removing the second person of a concrete state drops
that person and their payment. -/
theorem removePerson_spec_witness :
    (removePerson ⟨[⟨"Ann", false, some 0, "", false⟩, ⟨"Bob", false, some 0, "", false⟩],
        [⟨"Ann", some 30, ""⟩], [⟨"Bob", "Ann", some 15, ""⟩], ""⟩ 1).people
      = ([⟨"Ann", false, some 0, "", false⟩, ⟨"Bob", false, some 0, "", false⟩] :
          List Person).eraseIdx 1 ∧
    (removePerson ⟨[⟨"Ann", false, some 0, "", false⟩, ⟨"Bob", false, some 0, "", false⟩],
        [⟨"Ann", some 30, ""⟩], [⟨"Bob", "Ann", some 15, ""⟩], ""⟩ 1).payments
      = ([⟨"Bob", "Ann", some 15, ""⟩] : List Payment).filter (fun pm =>
          decide (jsToLower (jsTrim pm.«from»)
            ≠ jsToLower (jsTrim (Person.mk "Bob" false (some 0) "" false).name)) &&
          decide (jsToLower (jsTrim pm.«to»)
            ≠ jsToLower (jsTrim (Person.mk "Bob" false (some 0) "" false).name))) :=
  (removePerson_spec ⟨[⟨"Ann", false, some 0, "", false⟩, ⟨"Bob", false, some 0, "", false⟩],
      [⟨"Ann", some 30, ""⟩], [⟨"Bob", "Ann", some 15, ""⟩], ""⟩ 1).2.1
    ⟨"Bob", false, some 0, "", false⟩ (by decide) (by decide) (by decide)

/-! ## Auto-settlement (`syncPeoplePaymentStatus`) -/

theorem mem_msetAux {α : Type} {x : String × α} :
    ∀ (m : JMap α) (k : String) (v : α), x ∈ msetAux m k v → x = (k, v) ∨ x ∈ m := by
  intro m
  induction m with
  | nil => intro k v h; simpa [msetAux] using h
  | cons p rest ih =>
    intro k v h
    obtain ⟨k0, v0⟩ := p
    by_cases hk : k0 = k
    · subst hk
      have hexp : msetAux ((k0, v0) :: rest) k0 v = (k0, v) :: rest := by
        simp [msetAux]
      rw [hexp, List.mem_cons] at h
      rcases h with h | h
      · exact Or.inl h
      · exact Or.inr (List.mem_cons_of_mem _ h)
    · simp only [msetAux, if_neg hk, List.mem_cons] at h
      rcases h with h | h
      · exact Or.inr (by rw [h]; exact List.mem_cons_self _ _)
      · rcases ih k v h with h' | h'
        · exact Or.inl h'
        · exact Or.inr (List.mem_cons_of_mem _ h')

theorem mget_mem {α : Type} {m : JMap α} {k : String} {v : α}
    (h : mget m k = some v) : (k, v) ∈ m := by
  unfold mget at h
  cases hf : m.find? (fun p => p.1 == k) with
  | none => rw [hf] at h; exact Option.noConfusion h
  | some p =>
    rw [hf] at h
    have hmem := List.mem_of_find?_eq_some hf
    have hkey := List.find?_some hf
    simp only [beq_iff_eq] at hkey
    have hv : p.2 = v := by simpa using h
    have hp : (k, v) = p := by
      obtain ⟨p1, p2⟩ := p
      simp only at hkey hv
      rw [hkey, hv]
    rw [hp]
    exact hmem

theorem recipientTotals_pos (st : AppState) :
    ∀ kv ∈ recipientTotals st, ∀ e ∈ kv.2, 0 < e.2 := by
  have main : ∀ (ps : List NPayment) (acc : JMap ℚ × JMap (JMap ℚ)),
      (∀ kv ∈ acc.2, ∀ e ∈ kv.2, 0 < e.2) →
      ∀ kv ∈ (ps.foldl syncStep acc).2, ∀ e ∈ kv.2, 0 < e.2 := by
    intro ps
    induction ps with
    | nil => intro acc hacc; exact hacc
    | cons p rest ih =>
      intro acc hacc
      rw [List.foldl_cons]
      apply ih
      unfold syncStep
      by_cases hskip : (p.«from» == "" || p.«to» == "" || decide (p.amount ≤ 0)) = true
      · rw [if_pos hskip]; exact hacc
      · rw [if_neg hskip]
        have hamt : 0 < p.amount := by
          simp only [Bool.or_eq_true, beq_iff_eq, decide_eq_true_eq, not_or] at hskip
          exact lt_of_not_le hskip.2
        intro kv hkv e he
        rcases mem_msetAux _ _ _ hkv with rfl | hkv'
        · -- the updated inner map
          simp only at he
          rcases mem_msetAux _ _ _ he with rfl | he'
          · -- the bumped entry
            simp only
            cases hg : mget ((mget acc.2 (jsToLower p.«from»)).getD []) (jsToLower p.«to») with
            | none => simp [hg]; exact hamt
            | some w =>
              have hw : 0 < w := by
                cases hacc2 : mget acc.2 (jsToLower p.«from») with
                | none => rw [hacc2] at hg; exact absurd hg (by simp [mget])
                | some inner =>
                  rw [hacc2] at hg
                  simp only [Option.getD_some] at hg
                  exact hacc _ (mget_mem hacc2) _ (mget_mem hg)
              simp [hg]
              positivity
          · -- an untouched entry of the inner map
            cases hacc2 : mget acc.2 (jsToLower p.«from») with
            | none =>
              rw [hacc2] at he'
              simp only [Option.getD_none] at he'
              exact absurd he' (List.not_mem_nil _)
            | some inner =>
              rw [hacc2] at he'
              simp only [Option.getD_some] at he'
              exact hacc _ (mget_mem hacc2) _ he'
        · exact hacc _ hkv' _ he
  intro kv hkv e he
  exact main (normalizedPayments st) ([], []) (by simp) kv hkv e he

theorem find?_pre_append {α : Type} {p : α → Bool} :
    ∀ (pre : List α) (e : α) (post : List α),
      (∀ x ∈ pre, p x = false) → p e = true →
      List.find? p (pre ++ e :: post) = some e := by
  intro pre
  induction pre with
  | nil => intro e post _ he; simp [List.find?_cons, he]
  | cons x rest ih =>
    intro e post hpre he
    have hx : p x = false := hpre x (List.mem_cons_self _ _)
    simp only [List.cons_append, List.find?_cons, hx]
    exact ih e post (fun y hy => hpre y (List.mem_cons_of_mem _ hy)) he

theorem topAux_cases : ∀ (entries : List (String × ℚ)) (best : String × ℚ),
    (topRecipientAux entries best = best ∧ ∀ e ∈ entries, e.2 ≤ best.2) ∨
    (∃ pre e post, entries = pre ++ e :: post ∧
      topRecipientAux entries best = e ∧ best.2 < e.2 ∧
      (∀ x ∈ pre, x.2 < e.2) ∧ (∀ x ∈ entries, x.2 ≤ e.2)) := by
  intro entries
  induction entries with
  | nil => intro best; exact Or.inl ⟨rfl, by simp⟩
  | cons hd rest ih =>
    intro best
    obtain ⟨r, a⟩ := hd
    by_cases h : best.2 < a
    · rcases ih (r, a) with ⟨heq, hall⟩ | ⟨pre, e, post, hsplit, heq, hlt, hpre, hall⟩
      · refine Or.inr ⟨[], (r, a), rest, by simp, ?_, h, by simp, ?_⟩
        · simp only [topRecipientAux, if_pos h]; exact heq
        · intro x hx
          rcases List.mem_cons.mp hx with rfl | hx'
          · exact le_refl _
          · exact hall x hx'
      · refine Or.inr ⟨(r, a) :: pre, e, post, by rw [hsplit, List.cons_append], ?_,
          lt_trans h hlt, ?_, ?_⟩
        · simp only [topRecipientAux, if_pos h]; exact heq
        · intro x hx
          rcases List.mem_cons.mp hx with rfl | hx'
          · exact hlt
          · exact hpre x hx'
        · intro x hx
          rcases List.mem_cons.mp hx with rfl | hx'
          · exact le_of_lt hlt
          · exact hall x hx'
    · have ha : a ≤ best.2 := not_lt.mp h
      rcases ih best with ⟨heq, hall⟩ | ⟨pre, e, post, hsplit, heq, hlt, hpre, hall⟩
      · refine Or.inl ⟨?_, ?_⟩
        · simp only [topRecipientAux, if_neg h]; exact heq
        · intro x hx
          rcases List.mem_cons.mp hx with rfl | hx'
          · exact ha
          · exact hall x hx'
      · refine Or.inr ⟨(r, a) :: pre, e, post, by rw [hsplit, List.cons_append], ?_,
          hlt, ?_, ?_⟩
        · simp only [topRecipientAux, if_neg h]; exact heq
        · intro x hx
          rcases List.mem_cons.mp hx with rfl | hx'
          · exact lt_of_le_of_lt ha hlt
          · exact hpre x hx'
        · intro x hx
          rcases List.mem_cons.mp hx with rfl | hx'
          · exact le_of_lt (lt_of_le_of_lt ha hlt)
          · exact hall x hx'

theorem topAux_firstMax (entries : List (String × ℚ)) (hne : entries ≠ [])
    (hpos : ∀ e ∈ entries, (-1 : ℚ) < e.2) :
    firstMaxEntry entries = some (topRecipientAux entries ("", -1)) := by
  rcases topAux_cases entries ("", -1) with ⟨heq, hall⟩ |
    ⟨pre, e, post, hsplit, heq, hlt, hpre, hall⟩
  · cases entries with
    | nil => exact absurd rfl hne
    | cons x rest =>
      have h1 := hall x (List.mem_cons_self _ _)
      have h2 := hpos x (List.mem_cons_self _ _)
      simp only at h1
      exact absurd h1 (not_le.mpr h2)
  · rw [heq]
    unfold firstMaxEntry
    rw [hsplit]
    apply find?_pre_append
    · intro x hx
      rw [List.all_eq_false]
      refine ⟨e, by simp, ?_⟩
      exact fun hc => absurd (of_decide_eq_true hc) (not_le.mpr (hpre x hx))
    · rw [List.all_eq_true]
      intro y hy
      exact decide_eq_true (hall y (by rw [hsplit]; exact hy))

theorem syncPerson_noop (st : AppState) (person : Person)
    (hc : ¬(0 < owedOf st person ∧ coversOwed st person)) :
    syncPerson st person = person := by
  unfold syncPerson
  by_cases hkey : personKey person = ""
  · rw [if_pos hkey]
  · rw [if_neg hkey, if_neg hc]

theorem syncPerson_paid (st : AppState) (person : Person)
    (hkey : personKey person ≠ "")
    (hc : 0 < owedOf st person ∧ coversOwed st person) :
    (syncPerson st person).paid = true := by
  unfold syncPerson
  rw [if_neg hkey, if_pos hc]
  cases hm : mget (recipientTotals st) (personKey person) with
  | none => by_cases hpa : person.paidAmount = some 0 <;> simp [hpa]
  | some recips =>
    by_cases hpa : person.paidAmount = some 0 <;>
      by_cases hlen : recips.length ≠ 0 <;>
        by_cases hpt : person.paidTo = "" <;>
          simp [hpa, hlen, hpt]

theorem syncPerson_paidAmount (st : AppState) (person : Person)
    (hkey : personKey person ≠ "")
    (hc : 0 < owedOf st person ∧ coversOwed st person) :
    (syncPerson st person).paidAmount =
      if person.paidAmount = some 0 then some (sentTotalOf st person)
      else person.paidAmount := by
  unfold syncPerson
  rw [if_neg hkey, if_pos hc]
  cases hm : mget (recipientTotals st) (personKey person) with
  | none => by_cases hpa : person.paidAmount = some 0 <;> simp [hpa]
  | some recips =>
    by_cases hpa : person.paidAmount = some 0 <;>
      by_cases hlen : recips.length ≠ 0 <;>
        by_cases hpt : person.paidTo = "" <;>
          simp [hpa, hlen, hpt]

theorem syncPerson_paidTo (st : AppState) (person : Person)
    (hkey : personKey person ≠ "")
    (hc : 0 < owedOf st person ∧ coversOwed st person)
    (recips : JMap ℚ)
    (hm : mget (recipientTotals st) (personKey person) = some recips)
    (hlen : recips ≠ []) (hpt : person.paidTo = "") :
    (syncPerson st person).paidTo =
      ((uniquePeople st).find?
        (fun n => jsToLower n == (topRecipientAux recips ("", -1)).1)).getD "" := by
  unfold syncPerson
  rw [if_neg hkey, if_pos hc, hm]
  have hlen' : recips.length ≠ 0 := fun h => hlen (List.length_eq_zero.mp h)
  by_cases hpa : person.paidAmount = some 0 <;>
    simp [hpa, hlen', hpt]

/-- **C8** (amended): `syncPeoplePaymentStatus` maps `syncPerson` over the
people; for a person with a non-empty trimmed name it marks `paid = true`
exactly when the owed remainder (`perPersonShare` minus paid, clamped to
`≥ 0`) is positive and the cumulative sent amount covers it within the
`0.01` epsilon (an already-`paid` person stays marked); for such a person
it sets `paidAmount` to the cumulative sent amount when `paidAmount` was
`0`, and sets `paidTo` (when previously empty, and when the person has at
least one recorded recipient) to the `uniquePeople` casing of the first
recipient, in iteration order, attaining the largest cumulative received
amount; when the trigger does not hold the person is left unchanged. -/
theorem syncPeoplePaymentStatus_spec (st : AppState) (person : Person)
    (hname : jsTrim person.name ≠ "") :
    syncPeoplePaymentStatus st = st.people.map (syncPerson st) ∧
    ((syncPerson st person).paid = true ↔
      (person.paid = true ∨ (0 < owedOf st person ∧ coversOwed st person))) ∧
    ((syncPerson st person).paidAmount =
      if 0 < owedOf st person ∧ coversOwed st person ∧ person.paidAmount = some 0
      then some (sentTotalOf st person) else person.paidAmount) ∧
    (∀ recips, 0 < owedOf st person → coversOwed st person →
      mget (recipientTotals st) (personKey person) = some recips → recips ≠ [] →
      person.paidTo = "" →
      ∃ top, firstMaxEntry recips = some top ∧
        (syncPerson st person).paidTo
          = ((uniquePeople st).find? (fun n => jsToLower n == top.1)).getD "") ∧
    (¬(0 < owedOf st person ∧ coversOwed st person) →
      syncPerson st person = person) := by
  have hkey : personKey person ≠ "" :=
    fun hz => hname ((jsToLower_empty_iff (jsTrim person.name)).mp hz)
  by_cases hc : 0 < owedOf st person ∧ coversOwed st person
  · refine ⟨rfl, ?_, ?_, ?_, fun hnc => absurd hc hnc⟩
    · rw [syncPerson_paid st person hkey hc]
      simp [hc]
    · rw [syncPerson_paidAmount st person hkey hc]
      by_cases hpa : person.paidAmount = some 0
      · rw [if_pos hpa, if_pos ⟨hc.1, hc.2, hpa⟩]
      · rw [if_neg hpa, if_neg (fun h => hpa h.2.2)]
    · intro recips _ _ hm hlen' hpt
      refine ⟨topRecipientAux recips ("", -1), ?_, ?_⟩
      · apply topAux_firstMax recips hlen'
        intro e he
        have := recipientTotals_pos st _ (mget_mem hm) e he
        linarith
      · exact syncPerson_paidTo st person hkey hc recips hm hlen' hpt
  · have hres := syncPerson_noop st person hc
    refine ⟨rfl, ?_, ?_, ?_, fun _ => hres⟩
    · rw [hres]
      simp [hc]
    · rw [hres, if_neg (fun h => hc ⟨h.1, h.2.1⟩)]
    · intro recips h1 h2 _ _ _
      exact absurd ⟨h1, h2⟩ hc

/-- Counterexample to C8 as stated: with a single person and no expenses,
the person's cumulative sent amount (`0`) covers their owed remainder
(`0`, as `perPersonShare - paid` clamped to `≥ 0`) within the `0.01`
epsilon, yet `syncPeoplePaymentStatus` does not mark them `paid` — the
code additionally requires the owed remainder to be positive. -/
theorem syncPeoplePaymentStatus_claim_counterexample :
    coversOwed ⟨[⟨"A", false, some 0, "", false⟩], [], [], ""⟩
        ⟨"A", false, some 0, "", false⟩ ∧
      syncPeoplePaymentStatus ⟨[⟨"A", false, some 0, "", false⟩], [], [], ""⟩
        = [⟨"A", false, some 0, "", false⟩] := by
  have hshare : perPersonShare ⟨[⟨"A", false, some 0, "", false⟩], [], [], ""⟩ = 0 := by
    unfold perPersonShare
    have ht : totalSpent ⟨[⟨"A", false, some 0, "", false⟩], [], [], ""⟩ = 0 := rfl
    rw [if_pos (Or.inr (le_of_eq ht))]
  have hmg : mget (paidByName ⟨[⟨"A", false, some 0, "", false⟩], [], [], ""⟩)
      (personKey ⟨"A", false, some 0, "", false⟩) = none := rfl
  have howed : owedOf ⟨[⟨"A", false, some 0, "", false⟩], [], [], ""⟩
      ⟨"A", false, some 0, "", false⟩ = 0 := by
    unfold owedOf
    rw [hshare, hmg]
    norm_num
  have hsg : mget (sentTotals ⟨[⟨"A", false, some 0, "", false⟩], [], [], ""⟩)
      (personKey ⟨"A", false, some 0, "", false⟩) = none := rfl
  have hsent : sentTotalOf ⟨[⟨"A", false, some 0, "", false⟩], [], [], ""⟩
      ⟨"A", false, some 0, "", false⟩ = 0 := by
    unfold sentTotalOf
    rw [hsg]
    rfl
  constructor
  · unfold coversOwed
    rw [howed, hsent]
    norm_num [settlementEpsilon]
  · have hnoop := syncPerson_noop ⟨[⟨"A", false, some 0, "", false⟩], [], [], ""⟩
      ⟨"A", false, some 0, "", false⟩
      (fun h => absurd (howed ▸ h.1) (lt_irrefl 0))
    simp [syncPeoplePaymentStatus, hnoop]

/-- Witness for the amended C8 at a concrete two-person state in which the
second person has fully paid their share by a payment to the first. -/
theorem syncPeoplePaymentStatus_spec_witness :
    syncPeoplePaymentStatus ⟨[⟨"A", false, some 0, "", false⟩,
        ⟨"B", false, some 0, "", false⟩], [⟨"A", some 20, ""⟩],
        [⟨"B", "A", some 10, ""⟩], ""⟩
      = ([⟨"A", false, some 0, "", false⟩, ⟨"B", false, some 0, "", false⟩] :
          List Person).map (syncPerson ⟨[⟨"A", false, some 0, "", false⟩,
        ⟨"B", false, some 0, "", false⟩], [⟨"A", some 20, ""⟩],
        [⟨"B", "A", some 10, ""⟩], ""⟩) ∧
    ((syncPerson ⟨[⟨"A", false, some 0, "", false⟩,
        ⟨"B", false, some 0, "", false⟩], [⟨"A", some 20, ""⟩],
        [⟨"B", "A", some 10, ""⟩], ""⟩ ⟨"B", false, some 0, "", false⟩).paid = true ↔
      ((⟨"B", false, some 0, "", false⟩ : Person).paid = true ∨
        (0 < owedOf ⟨[⟨"A", false, some 0, "", false⟩,
            ⟨"B", false, some 0, "", false⟩], [⟨"A", some 20, ""⟩],
            [⟨"B", "A", some 10, ""⟩], ""⟩ ⟨"B", false, some 0, "", false⟩ ∧
          coversOwed ⟨[⟨"A", false, some 0, "", false⟩,
            ⟨"B", false, some 0, "", false⟩], [⟨"A", some 20, ""⟩],
            [⟨"B", "A", some 10, ""⟩], ""⟩ ⟨"B", false, some 0, "", false⟩))) ∧
    ((syncPerson ⟨[⟨"A", false, some 0, "", false⟩,
        ⟨"B", false, some 0, "", false⟩], [⟨"A", some 20, ""⟩],
        [⟨"B", "A", some 10, ""⟩], ""⟩ ⟨"B", false, some 0, "", false⟩).paidAmount =
      if 0 < owedOf ⟨[⟨"A", false, some 0, "", false⟩,
            ⟨"B", false, some 0, "", false⟩], [⟨"A", some 20, ""⟩],
            [⟨"B", "A", some 10, ""⟩], ""⟩ ⟨"B", false, some 0, "", false⟩ ∧
          coversOwed ⟨[⟨"A", false, some 0, "", false⟩,
            ⟨"B", false, some 0, "", false⟩], [⟨"A", some 20, ""⟩],
            [⟨"B", "A", some 10, ""⟩], ""⟩ ⟨"B", false, some 0, "", false⟩ ∧
          (⟨"B", false, some 0, "", false⟩ : Person).paidAmount = some 0
      then some (sentTotalOf ⟨[⟨"A", false, some 0, "", false⟩,
            ⟨"B", false, some 0, "", false⟩], [⟨"A", some 20, ""⟩],
            [⟨"B", "A", some 10, ""⟩], ""⟩ ⟨"B", false, some 0, "", false⟩)
      else (⟨"B", false, some 0, "", false⟩ : Person).paidAmount) ∧
    (∀ recips, 0 < owedOf ⟨[⟨"A", false, some 0, "", false⟩,
            ⟨"B", false, some 0, "", false⟩], [⟨"A", some 20, ""⟩],
            [⟨"B", "A", some 10, ""⟩], ""⟩ ⟨"B", false, some 0, "", false⟩ →
      coversOwed ⟨[⟨"A", false, some 0, "", false⟩,
            ⟨"B", false, some 0, "", false⟩], [⟨"A", some 20, ""⟩],
            [⟨"B", "A", some 10, ""⟩], ""⟩ ⟨"B", false, some 0, "", false⟩ →
      mget (recipientTotals ⟨[⟨"A", false, some 0, "", false⟩,
            ⟨"B", false, some 0, "", false⟩], [⟨"A", some 20, ""⟩],
            [⟨"B", "A", some 10, ""⟩], ""⟩)
          (personKey ⟨"B", false, some 0, "", false⟩) = some recips → recips ≠ [] →
      (⟨"B", false, some 0, "", false⟩ : Person).paidTo = "" →
      ∃ top, firstMaxEntry recips = some top ∧
        (syncPerson ⟨[⟨"A", false, some 0, "", false⟩,
            ⟨"B", false, some 0, "", false⟩], [⟨"A", some 20, ""⟩],
            [⟨"B", "A", some 10, ""⟩], ""⟩ ⟨"B", false, some 0, "", false⟩).paidTo
          = ((uniquePeople ⟨[⟨"A", false, some 0, "", false⟩,
              ⟨"B", false, some 0, "", false⟩], [⟨"A", some 20, ""⟩],
              [⟨"B", "A", some 10, ""⟩], ""⟩).find?
            (fun n => jsToLower n == top.1)).getD "") ∧
    (¬(0 < owedOf ⟨[⟨"A", false, some 0, "", false⟩,
            ⟨"B", false, some 0, "", false⟩], [⟨"A", some 20, ""⟩],
            [⟨"B", "A", some 10, ""⟩], ""⟩ ⟨"B", false, some 0, "", false⟩ ∧
        coversOwed ⟨[⟨"A", false, some 0, "", false⟩,
            ⟨"B", false, some 0, "", false⟩], [⟨"A", some 20, ""⟩],
            [⟨"B", "A", some 10, ""⟩], ""⟩ ⟨"B", false, some 0, "", false⟩) →
      syncPerson ⟨[⟨"A", false, some 0, "", false⟩,
          ⟨"B", false, some 0, "", false⟩], [⟨"A", some 20, ""⟩],
          [⟨"B", "A", some 10, ""⟩], ""⟩ ⟨"B", false, some 0, "", false⟩
        = ⟨"B", false, some 0, "", false⟩) :=
  syncPeoplePaymentStatus_spec
    ⟨[⟨"A", false, some 0, "", false⟩, ⟨"B", false, some 0, "", false⟩],
      [⟨"A", some 20, ""⟩], [⟨"B", "A", some 10, ""⟩], ""⟩
    ⟨"B", false, some 0, "", false⟩ (by decide)

/-! ## Share round-trip -/

theorem decompressShare_u1 (decomp : List Nat → Option (List Nat))
    (txtDec : List Nat → Option String) (s : String) :
    decompressShare decomp txtDec ("u1." ++ s)
      = (base64UrlDecodeToBytes s).bind txtDec := by
  cases s with
  | mk data => rfl

theorem decompressShare_c1 (decomp : List Nat → Option (List Nat))
    (txtDec : List Nat → Option String) (s : String) :
    decompressShare decomp txtDec ("c1." ++ s)
      = (base64UrlDecodeToBytes s).bind (fun bytes =>
          (decomp bytes).bind txtDec) := by
  cases s with
  | mk data => rfl

theorem personJson_decode (p : Person) (hp : p.paidAmount ≠ none) :
    decodePersonEntry (.obj
      [("name", .str (jsTrim p.name)), ("paid", .bool p.paid),
       ("paidAmount", jsNumToJson p.paidAmount), ("paidTo", .str p.paidTo),
       ("auto", .bool p.auto)]) = { p with name := jsTrim p.name } := by
  obtain ⟨name, paid, paidAmount, paidTo, auto⟩ := p
  cases paidAmount with
  | none => exact absurd rfl hp
  | some q => rfl

theorem build_isObj (st : AppState) : isJsObject (buildSharePayload st) = true := rfl

theorem build_people (st : AppState) :
    getField (buildSharePayload st) "people"
      = some (.arr (st.people.map (fun p => .obj
          [("name", .str (jsTrim p.name)), ("paid", .bool p.paid),
           ("paidAmount", jsNumToJson p.paidAmount), ("paidTo", .str p.paidTo),
           ("auto", .bool p.auto)]))) := by
  unfold buildSharePayload
  by_cases hsid : st.sid = ""
  · simp only [hsid]
    rfl
  · rw [if_neg hsid]
    rfl

theorem build_expenses (st : AppState) :
    getField (buildSharePayload st) "expenses"
      = some (.arr ((normalizedExpenses st).map (fun e => .obj
          [("payer", .str e.payer), ("amount", .num e.amount),
           ("note", .str e.note)]))) := by
  unfold buildSharePayload
  by_cases hsid : st.sid = ""
  · simp only [hsid]
    rfl
  · rw [if_neg hsid]
    rfl

theorem build_payments (st : AppState) :
    getField (buildSharePayload st) "payments"
      = some (.arr ((normalizedPayments st).map (fun p => .obj
          [("from", .str p.«from»), ("to", .str p.«to»),
           ("amount", .num p.amount), ("note", .str p.note)]))) := by
  unfold buildSharePayload
  by_cases hsid : st.sid = ""
  · simp only [hsid]
    rfl
  · rw [if_neg hsid]
    rfl

theorem build_sid (st : AppState) :
    getField (buildSharePayload st) "sid"
      = if st.sid = "" then none else some (.str st.sid) := by
  unfold buildSharePayload
  by_cases hsid : st.sid = ""
  · simp only [hsid]
    rfl
  · rw [if_neg hsid, if_neg hsid]
    rfl

theorem decodePayload_build (st : AppState)
    (hfinite : ∀ p ∈ st.people, p.paidAmount ≠ none) :
    decodePayload (buildSharePayload st) = some (normalizeState st) := by
  unfold decodePayload
  rw [if_pos (build_isObj st), build_people, build_expenses, build_payments,
    build_sid]
  have hp : ((st.people.map (fun p => Json.obj
      [("name", .str (jsTrim p.name)), ("paid", .bool p.paid),
       ("paidAmount", jsNumToJson p.paidAmount), ("paidTo", .str p.paidTo),
       ("auto", .bool p.auto)])).filter isJsObject).map decodePersonEntry
      = st.people.map (fun p => { p with name := jsTrim p.name }) := by
    rw [List.filter_eq_self.mpr ?hobj]
    case hobj =>
      intro a ha
      rw [List.mem_map] at ha
      obtain ⟨p, _, rfl⟩ := ha
      rfl
    rw [List.map_map]
    apply List.map_congr_left
    intro p hp
    exact personJson_decode p (hfinite p hp)
  have he : (((normalizedExpenses st).map (fun e => Json.obj
      [("payer", .str e.payer), ("amount", .num e.amount),
       ("note", .str e.note)])).filter isJsObject).map decodeExpenseEntry
      = (normalizedExpenses st).map (fun e =>
          ({ payer := e.payer, amount := some e.amount, note := e.note } : Expense)) := by
    rw [List.filter_eq_self.mpr ?hobj]
    case hobj =>
      intro a ha
      rw [List.mem_map] at ha
      obtain ⟨e, _, rfl⟩ := ha
      rfl
    rw [List.map_map]
    apply List.map_congr_left
    intro e he
    rfl
  have hpm : (((normalizedPayments st).map (fun p => Json.obj
      [("from", .str p.«from»), ("to", .str p.«to»),
       ("amount", .num p.amount), ("note", .str p.note)])).filter isJsObject).map
        decodePaymentEntry
      = (normalizedPayments st).map (fun p =>
          ({ «from» := p.«from», «to» := p.«to», amount := some p.amount,
             note := p.note } : Payment)) := by
    rw [List.filter_eq_self.mpr ?hobj]
    case hobj =>
      intro a ha
      rw [List.mem_map] at ha
      obtain ⟨pm, _, rfl⟩ := ha
      rfl
    rw [List.map_map]
    apply List.map_congr_left
    intro pm hpm
    rfl
  unfold normalizeState
  by_cases hsid : st.sid = ""
  · rw [if_pos hsid]
    simp only [hp, he, hpm, decodeStrField, hsid]
  · rw [if_neg hsid]
    simp only [hp, he, hpm, decodeStrField]

/-- **C1** (amended): the decode of the encode of a state yields the
normalized state — trimmed people names with their `paid`/`paidAmount`/
`paidTo`/`auto` fields, trimmed expenses with clamped amounts, and the
valid payments — on both the uncompressed `u1.` path and the compressed
`c1.` path, for every state whose people all have finite `paidAmount`,
and for any platform primitives (`JSON.stringify`/`JSON.parse`,
`TextEncoder`/`TextDecoder`, gzip) satisfying their round-trip contracts
on this payload. -/
theorem share_roundtrip (st : AppState)
    (stringify : Json → String) (parse : String → Option Json)
    (txtEnc : String → List Nat) (txtDec : List Nat → Option String)
    (comp : List Nat → List Nat) (decomp : List Nat → Option (List Nat))
    (hfinite : ∀ p ∈ st.people, p.paidAmount ≠ none)
    (hparse : parse (stringify (buildSharePayload st))
      = some (buildSharePayload st))
    (htxt : txtDec (txtEnc (stringify (buildSharePayload st)))
      = some (stringify (buildSharePayload st)))
    (hbytes : ∀ b ∈ txtEnc (stringify (buildSharePayload st)), b < 256)
    (hcomp : decomp (comp (txtEnc (stringify (buildSharePayload st))))
      = some (txtEnc (stringify (buildSharePayload st))))
    (hcompBytes : ∀ b ∈ comp (txtEnc (stringify (buildSharePayload st))), b < 256) :
    decodeShare decomp txtDec parse
        (encodeShareU1 txtEnc (stringify (buildSharePayload st)))
      = some (normalizeState st) ∧
    decodeShare decomp txtDec parse
        (encodeShareC1 comp txtEnc (stringify (buildSharePayload st)))
      = some (normalizeState st) := by
  constructor
  · unfold decodeShare encodeShareU1
    rw [decompressShare_u1, base64url_roundtrip_aux _ hbytes]
    simp only [Option.bind_eq_bind, Option.some_bind, htxt, hparse]
    exact decodePayload_build st hfinite
  · unfold decodeShare encodeShareC1
    rw [decompressShare_c1, base64url_roundtrip_aux _ hcompBytes]
    simp only [Option.bind_eq_bind, Option.some_bind, hcomp, htxt, hparse]
    exact decodePayload_build st hfinite

/-- **C7**: payload decoding is defensive at field level: every record
field that is missing or wrong-typed independently falls back to its zero
value (`""`, `0`, `false`) without the record being rejected, and decoding
`"u1.eyJ2IjoxfQ"` (the payload `\x7b"v":1\x7d`) succeeds with empty
people, expenses and payments — whatever the decompressor. -/
theorem decode_defensive :
    (∀ n p pa pt au : Json,
      (decodePersonEntry (.obj [("name", n), ("paid", p), ("paidAmount", pa),
        ("paidTo", pt), ("auto", au)])).name
        = match n with
          | .str s => s
          | _ => "") ∧
    (∀ n p pa pt au : Json,
      (decodePersonEntry (.obj [("name", n), ("paid", p), ("paidAmount", pa),
        ("paidTo", pt), ("auto", au)])).paid
        = match p with
          | .bool b => b
          | _ => false) ∧
    (∀ n p pa pt au : Json,
      (decodePersonEntry (.obj [("name", n), ("paid", p), ("paidAmount", pa),
        ("paidTo", pt), ("auto", au)])).paidAmount
        = match pa with
          | .num q => some q
          | _ => some 0) ∧
    (∀ n p pa pt au : Json,
      (decodePersonEntry (.obj [("name", n), ("paid", p), ("paidAmount", pa),
        ("paidTo", pt), ("auto", au)])).paidTo
        = match pt with
          | .str s => s
          | _ => "") ∧
    (∀ n p pa pt au : Json,
      (decodePersonEntry (.obj [("name", n), ("paid", p), ("paidAmount", pa),
        ("paidTo", pt), ("auto", au)])).auto
        = match au with
          | .bool b => b
          | _ => false) ∧
    (∀ py am nt : Json,
      (decodeExpenseEntry (.obj [("payer", py), ("amount", am),
        ("note", nt)])).payer
        = match py with
          | .str s => s
          | _ => "") ∧
    (∀ py am nt : Json,
      (decodeExpenseEntry (.obj [("payer", py), ("amount", am),
        ("note", nt)])).amount
        = match am with
          | .num q => some q
          | _ => some 0) ∧
    (∀ py am nt : Json,
      (decodeExpenseEntry (.obj [("payer", py), ("amount", am),
        ("note", nt)])).note
        = match nt with
          | .str s => s
          | _ => "") ∧
    (∀ f t am nt : Json,
      (decodePaymentEntry (.obj [("from", f), ("to", t), ("amount", am),
        ("note", nt)])).«from»
        = match f with
          | .str s => s
          | _ => "") ∧
    (∀ f t am nt : Json,
      (decodePaymentEntry (.obj [("from", f), ("to", t), ("amount", am),
        ("note", nt)])).«to»
        = match t with
          | .str s => s
          | _ => "") ∧
    (∀ f t am nt : Json,
      (decodePaymentEntry (.obj [("from", f), ("to", t), ("amount", am),
        ("note", nt)])).amount
        = match am with
          | .num q => some q
          | _ => some 0) ∧
    (∀ f t am nt : Json,
      (decodePaymentEntry (.obj [("from", f), ("to", t), ("amount", am),
        ("note", nt)])).note
        = match nt with
          | .str s => s
          | _ => "") ∧
    decodePersonEntry (.obj []) = ⟨"", false, some 0, "", false⟩ ∧
    decodeExpenseEntry (.obj []) = ⟨"", some 0, ""⟩ ∧
    decodePaymentEntry (.obj []) = ⟨"", "", some 0, ""⟩ ∧
    (∀ decomp, decodeShare decomp utf8Decode jsonParse "u1.eyJ2IjoxfQ"
      = some ⟨[], [], [], ""⟩) := by
  refine ⟨?_, ?_, ?_, ?_, ?_, ?_, ?_, ?_, ?_, ?_, ?_, ?_, rfl, rfl, rfl,
    fun _ => rfl⟩
  · intro n p pa pt au
    cases n <;> rfl
  · intro n p pa pt au
    cases p <;> rfl
  · intro n p pa pt au
    cases pa <;> rfl
  · intro n p pa pt au
    cases pt <;> rfl
  · intro n p pa pt au
    cases au <;> rfl
  · intro py am nt
    cases py <;> rfl
  · intro py am nt
    cases am <;> rfl
  · intro py am nt
    cases nt <;> rfl
  · intro f t am nt
    cases f <;> rfl
  · intro f t am nt
    cases t <;> rfl
  · intro f t am nt
    cases am <;> rfl
  · intro f t am nt
    cases nt <;> rfl

/-- Counterexample to C1 as stated: a person with a non-finite
`paidAmount` (`NaN`/`Infinity`) does not round-trip — `JSON.stringify`
emits `null` for it, and decoding defaults it to `0` — even though every
platform primitive satisfies its contract on this payload. -/
theorem share_roundtrip_counterexample :
    jsonParse (stringifyJson 100 (buildSharePayload
        ⟨[⟨"A", false, none, "", false⟩], [], [], ""⟩))
      = some (buildSharePayload ⟨[⟨"A", false, none, "", false⟩], [], [], ""⟩) ∧
    utf8Decode (utf8Encode (stringifyJson 100 (buildSharePayload
        ⟨[⟨"A", false, none, "", false⟩], [], [], ""⟩)))
      = some (stringifyJson 100 (buildSharePayload
        ⟨[⟨"A", false, none, "", false⟩], [], [], ""⟩)) ∧
    (∀ b ∈ utf8Encode (stringifyJson 100 (buildSharePayload
        ⟨[⟨"A", false, none, "", false⟩], [], [], ""⟩)), b < 256) ∧
    decodeShare (fun b => some b) utf8Decode jsonParse
        (encodeShareU1 utf8Encode (stringifyJson 100 (buildSharePayload
          ⟨[⟨"A", false, none, "", false⟩], [], [], ""⟩)))
      ≠ some (normalizeState ⟨[⟨"A", false, none, "", false⟩], [], [], ""⟩) :=
  ⟨rfl, rfl, by decide, by decide⟩

/-- Witness for the amended C1: the round trip at a concrete state with an
untrimmed person name, a share id, an expense and both a valid and an
invalid payment, instantiated with this file's JSON, UTF-8 and identity
compression models. -/
theorem share_roundtrip_witness :
    decodeShare (fun b => some b) utf8Decode jsonParse
        (encodeShareU1 utf8Encode (stringifyJson 100 (buildSharePayload
          ⟨[⟨" A ", false, some 0, "", false⟩, ⟨"B", true, some 15, "A", false⟩],
           [⟨"A", some 30, " lunch "⟩],
           [⟨"B", "A", some 15, ""⟩, ⟨"x", "x", some 9, ""⟩], "s-1"⟩)))
      = some (normalizeState
          ⟨[⟨" A ", false, some 0, "", false⟩, ⟨"B", true, some 15, "A", false⟩],
           [⟨"A", some 30, " lunch "⟩],
           [⟨"B", "A", some 15, ""⟩, ⟨"x", "x", some 9, ""⟩], "s-1"⟩) ∧
    decodeShare (fun b => some b) utf8Decode jsonParse
        (encodeShareC1 (fun b => b) utf8Encode (stringifyJson 100 (buildSharePayload
          ⟨[⟨" A ", false, some 0, "", false⟩, ⟨"B", true, some 15, "A", false⟩],
           [⟨"A", some 30, " lunch "⟩],
           [⟨"B", "A", some 15, ""⟩, ⟨"x", "x", some 9, ""⟩], "s-1"⟩)))
      = some (normalizeState
          ⟨[⟨" A ", false, some 0, "", false⟩, ⟨"B", true, some 15, "A", false⟩],
           [⟨"A", some 30, " lunch "⟩],
           [⟨"B", "A", some 15, ""⟩, ⟨"x", "x", some 9, ""⟩], "s-1"⟩) :=
  share_roundtrip
    ⟨[⟨" A ", false, some 0, "", false⟩, ⟨"B", true, some 15, "A", false⟩],
     [⟨"A", some 30, " lunch "⟩],
     [⟨"B", "A", some 15, ""⟩, ⟨"x", "x", some 9, ""⟩], "s-1"⟩
    (stringifyJson 100) jsonParse utf8Encode utf8Decode (fun b => b)
    (fun b => some b) (by decide) rfl rfl (by decide) rfl (by decide)


end ExpenseSplitter
